import Mathlib

/-!
Shallow embedding of the ViroCore scene-graph node engine (VRONode.cpp) and of
the FBX skeletal-animation loader (VROFBXLoader.cpp), together with theorems
settling the specification claims about transform composition, visibility,
sort-key generation, hit-testing, physics registration, the atomic transform
path and skeletal-animation loading.

Modelling conventions:
* machine floats are modelled as exact rationals (ℚ);
* `VROMatrix4f` is a 4x4 rational matrix (column-major in C++, so storage
  indices 12–14 are column 3, the translation column);
* a node's `_rotation` quaternion is represented by its rotation matrix
  (the engine only ever uses `_rotation.getMatrix()` in the code under study);
* collaborator interfaces that are not part of the sources under study
  (camera frustum classification, distance metric, ray/box intersection,
  triangle-level geometry tests) are modelled as explicit function parameters,
  as dictated by the spec's external-interface section.
-/

namespace Viro

/-- 4x4 rational matrix modelling `VROMatrix4f`. -/
abbrev M4 : Type := Matrix (Fin 4) (Fin 4) ℚ

/-- 3-component vector modelling `VROVector3f`. -/
structure V3 where
  x : ℚ
  y : ℚ
  z : ℚ
deriving DecidableEq, Repr

/-- The scale matrix built by `VROMatrix4f::scale` applied to the identity. -/
def scaleM (s : V3) : M4 :=
  !![s.x, 0, 0, 0; 0, s.y, 0, 0; 0, 0, s.z, 0; 0, 0, 0, 1]

/-- The translation matrix built by `VROMatrix4f::translate` applied to the
identity (`translate.translate(x, y, z)` in `doComputeTransform`). -/
def translateM (p : V3) : M4 :=
  !![1, 0, 0, p.x; 0, 1, 0, p.y; 0, 0, 1, p.z; 0, 0, 0, 1]

/-- Extraction of the translation column of a transform: C++ storage indices
12, 13, 14 of a column-major matrix, i.e. rows 0–2 of column 3. -/
def transCol (m : M4) : V3 := ⟨m 0 3, m 1 3, m 2 3⟩

/-- Computable 4x4 matrix inverse, modelling `VROMatrix4f::invert`
(used for `_computedTransform.invert().transpose()` in `updateSortKeys`). -/
def inv4 (m : M4) : M4 := (Matrix.det m)⁻¹ • Matrix.adjugate m

/-- Axis-aligned bounding box, modelling `VROBoundingBox` with constructor
argument order `(minX, maxX, minY, maxY, minZ, maxZ)` as used by
`VROBoundingBox(px, px, py, py, pz, pz)` in VRONode.cpp. -/
structure Box where
  xmin : ℚ
  xmax : ℚ
  ymin : ℚ
  ymax : ℚ
  zmin : ℚ
  zmax : ℚ
deriving DecidableEq, Repr

/-- The zero-volume box at a point, as built by
`VROBoundingBox(p.x, p.x, p.y, p.y, p.z, p.z)`. -/
def pointBox (p : V3) : Box := ⟨p.x, p.x, p.y, p.y, p.z, p.z⟩

/-- Modelled from the spec: `VROBoundingBox::unionDestructive` is not in the
sources under study; per the spec the umbrella box is the "union of a node's
own world bounding box and all descendants'", i.e. the componentwise min/max
union of axis-aligned boxes. -/
def boxUnion (a b : Box) : Box :=
  ⟨min a.xmin b.xmin, max a.xmax b.xmax,
   min a.ymin b.ymin, max a.ymax b.ymax,
   min a.zmin b.zmin, max a.zmax b.zmax⟩

/-- Application of a homogeneous transform to a point (w = 1), modelling
`VROMatrix4f::multiply(VROVector3f)`. -/
def applyPoint (m : M4) (v : V3) : V3 :=
  ⟨m 0 0 * v.x + m 0 1 * v.y + m 0 2 * v.z + m 0 3,
   m 1 0 * v.x + m 1 1 * v.y + m 1 2 * v.z + m 1 3,
   m 2 0 * v.x + m 2 1 * v.y + m 2 2 * v.z + m 2 3⟩

/-- Modelled from the spec: `VROBoundingBox::transform` is not in the sources
under study; per the spec a geometry's "local bounding box is transformed into
world space using the world transform".  Standard AABB transform: map the
eight corners and take the componentwise min/max. -/
def boxTransform (b : Box) (m : M4) : Box :=
  let p0 := applyPoint m ⟨b.xmin, b.ymin, b.zmin⟩
  let p1 := applyPoint m ⟨b.xmin, b.ymin, b.zmax⟩
  let p2 := applyPoint m ⟨b.xmin, b.ymax, b.zmin⟩
  let p3 := applyPoint m ⟨b.xmin, b.ymax, b.zmax⟩
  let p4 := applyPoint m ⟨b.xmax, b.ymin, b.zmin⟩
  let p5 := applyPoint m ⟨b.xmax, b.ymin, b.zmax⟩
  let p6 := applyPoint m ⟨b.xmax, b.ymax, b.zmin⟩
  let p7 := applyPoint m ⟨b.xmax, b.ymax, b.zmax⟩
  ⟨min p0.x (min p1.x (min p2.x (min p3.x (min p4.x (min p5.x (min p6.x p7.x)))))),
   max p0.x (max p1.x (max p2.x (max p3.x (max p4.x (max p5.x (max p6.x p7.x)))))),
   min p0.y (min p1.y (min p2.y (min p3.y (min p4.y (min p5.y (min p6.y p7.y)))))),
   max p0.y (max p1.y (max p2.y (max p3.y (max p4.y (max p5.y (max p6.y p7.y)))))),
   min p0.z (min p1.z (min p2.z (min p3.z (min p4.z (min p5.z (min p6.z p7.z)))))),
   max p0.z (max p1.z (max p2.z (max p3.z (max p4.z (max p5.z (max p6.z p7.z)))))) ⟩

/-- Opacity below which a node is considered hidden:
`static const float kHiddenOpacityThreshold = 0.02`. -/
def kHiddenOpacityThreshold : ℚ := 2 / 100

/-- `static const bool kEnableVisibilityFrustumTest = true`. -/
def kEnableVisibilityFrustumTest : Bool := true

/-- Node kind: `VRONodeType` (`Normal | Portal | PortalFrame`). -/
inductive VRONodeType where
  | Normal
  | Portal
  | PortalFrame
deriving DecidableEq, Repr

/-- Geometry attachment, modelling the narrow `VROGeometry` interface the node
code consumes: a world-independent local bounding box (`getBoundingBox`), its
atomic mirror (`getLastBoundingBox`), and the per-element sort keys the
geometry hands back in `getSortKeys` (modelled as opaque key identifiers).
Instanced UBOs are modelled as absent. -/
structure Geom where
  bbox : Box
  lastBBox : Box
  keys : List ℕ
deriving DecidableEq, Repr

/-- The per-node state of `VRONode` relevant to the claims.  The two pivot
fields of the C++ class (`_rotationPivot`/`_rotationPivotInverse`,
`_scalePivot`/`_scalePivotInverse`) are only ever written together by
`setRotationPivot`/`setScalePivot`, so each pair is stored as one optional
pair (pivot, stored inverse). -/
structure NodeData where
  uid : ℕ
  type : VRONodeType
  position : V3
  scale : V3
  /-- rotation matrix of the `_rotation` quaternion (`_rotation.getMatrix()`). -/
  rotation : M4
  rotationPivot : Option (M4 × M4)
  scalePivot : Option (M4 × M4)
  opacity : ℚ
  opacityFromHiddenFlag : ℚ
  hidden : Bool
  selectable : Bool
  highAccuracyGaze : Bool
  hierarchicalRendering : Bool
  visible : Bool
  geometry : Option Geom
  physicsBody : Option ℕ
  scene : Option ℕ
  computedTransform : M4
  computedRotation : M4
  computedPosition : V3
  computedBoundingBox : Box
  umbrellaBoundingBox : Box
  computedOpacity : ℚ
  computedInverseTransposeTransform : M4
  lastPosition : V3
  lastRotation : M4
  lastScale : V3
  lastComputedTransform : M4
  lastComputedPosition : V3
  lastComputedRotation : M4
  lastComputedBoundingBox : Box
  lastUmbrellaBoundingBox : Box

/-- Default node state following the `VRONode()` constructor: `Normal` type,
not visible, unit scale, opacity 1, selectable, identity cached transforms. -/
def defaultData : NodeData where
  uid := 0
  type := .Normal
  position := ⟨0, 0, 0⟩
  scale := ⟨1, 1, 1⟩
  rotation := 1
  rotationPivot := none
  scalePivot := none
  opacity := 1
  opacityFromHiddenFlag := 1
  hidden := false
  selectable := true
  highAccuracyGaze := false
  hierarchicalRendering := false
  visible := false
  geometry := none
  physicsBody := none
  scene := none
  computedTransform := 1
  computedRotation := 1
  computedPosition := ⟨0, 0, 0⟩
  computedBoundingBox := pointBox ⟨0, 0, 0⟩
  umbrellaBoundingBox := pointBox ⟨0, 0, 0⟩
  computedOpacity := 1
  computedInverseTransposeTransform := 1
  lastPosition := ⟨0, 0, 0⟩
  lastRotation := 1
  lastScale := ⟨1, 1, 1⟩
  lastComputedTransform := 1
  lastComputedPosition := ⟨0, 0, 0⟩
  lastComputedRotation := 1
  lastComputedBoundingBox := pointBox ⟨0, 0, 0⟩
  lastUmbrellaBoundingBox := pointBox ⟨0, 0, 0⟩

/-- `getBoundingBox()`: with instanced UBOs modelled as absent this is the
cached `_computedBoundingBox`. -/
def getBoundingBoxD (d : NodeData) : Box := d.computedBoundingBox

mutual

/-- A scene-graph tree: one `VRONode` with its ordered `_subnodes`. -/
inductive VTree where
  | node (data : NodeData) (children : VForest) : VTree

/-- The ordered list of children of a node (`std::vector<std::shared_ptr<VRONode>>`). -/
inductive VForest where
  | nil : VForest
  | cons (head : VTree) (tail : VForest) : VForest

end

/-- The node state stored at the root of a tree. -/
def VTree.data : VTree → NodeData
  | .node d _ => d

/-- The children of the root of a tree. -/
def VTree.children : VTree → VForest
  | .node _ f => f

@[simp] theorem VTree.data_node (d : NodeData) (f : VForest) :
    (VTree.node d f).data = d := rfl

@[simp] theorem VTree.children_node (d : NodeData) (f : VForest) :
    (VTree.node d f).children = f := rfl

/-- Membership of a tree in a forest of children. -/
inductive VForest.Mem : VTree → VForest → Prop
  | head (t : VTree) (f : VForest) : VForest.Mem t (.cons t f)
  | tail (t h : VTree) (f : VForest) : VForest.Mem t f → VForest.Mem t (.cons h f)

/-- `Occurs s t`: the tree `s` is a subtree of `t` (reflexively). -/
inductive Occurs : VTree → VTree → Prop
  | refl (t : VTree) : Occurs t t
  | step (s c : VTree) (d : NodeData) (f : VForest) :
      VForest.Mem c f → Occurs s c → Occurs s (.node d f)

/-- `OccursVis s t`: `s` is a subtree of `t` reachable through visible nodes
(every node on the path from `t` to `s`, both included, is visible) — exactly
the subtrees whose root node the sort-key pass processes, since
`updateSortKeys` returns early on an invisible node. -/
inductive OccursVis : VTree → VTree → Prop
  | refl (t : VTree) : t.data.visible = true → OccursVis t t
  | step (s c : VTree) (d : NodeData) (f : VForest) :
      d.visible = true → VForest.Mem c f → OccursVis s c → OccursVis s (.node d f)

/-! ## Transform computation (`VRONode::computeTransforms` / `doComputeTransform`) -/

/-- The local matrix built step by step by `doComputeTransform` before the
final multiplication with the parent transform:
scale part (with optional scale pivot), then rotation (with optional rotation
pivot, pre- and post-multiplied), then translation. -/
def localTransform (d : NodeData) : M4 :=
  let scalePart : M4 :=
    match d.scalePivot with
    | some sp => sp.1 * scaleM d.scale * sp.2
    | none => scaleM d.scale
  let rotPart : M4 :=
    match d.rotationPivot with
    | some rp => rp.1 * (d.rotation * (rp.2 * scalePart))
    | none => d.rotation * scalePart
  translateM d.position * rotPart

/-- `VRONode::doComputeTransform`: sets `_computedTransform` to
`parentTransform * localTransform`, extracts `_computedPosition` from the
translation column, and sets `_computedBoundingBox` (transformed geometry box,
or a zero-size box at the node's position when there is no geometry). -/
def doComputeTransformData (pt : M4) (d : NodeData) : NodeData :=
  let ct := pt * localTransform d
  let cp := transCol ct
  { d with
    computedTransform := ct
    computedPosition := cp
    computedBoundingBox :=
      match d.geometry with
      | some g => boxTransform g.bbox ct
      | none => pointBox cp }

/-- The per-node part of `VRONode::computeTransforms`: `doComputeTransform`
followed by `_computedRotation = parentRotation.multiply(_rotation.getMatrix())`.
(Spatial sounds, which only receive the computed transform, are not modelled.) -/
def computeTransformsData (pt prm : M4) (d : NodeData) : NodeData :=
  { doComputeTransformData pt d with computedRotation := prm * d.rotation }

mutual

/-- `VRONode::computeTransforms(parentTransform, parentRotation)`: compute this
node's transform and rotation, then recurse into the children with the freshly
computed `_computedTransform` and `_computedRotation`. -/
def computeTransforms (pt prm : M4) : VTree → VTree
  | .node d f =>
    let d' := computeTransformsData pt prm d
    .node d' (computeTransformsF d'.computedTransform d'.computedRotation f)
termination_by structural t => t

/-- The `for (childNode : _subnodes) childNode->computeTransforms(...)` loop. -/
def computeTransformsF (pt prm : M4) : VForest → VForest
  | .nil => .nil
  | .cons c rest => .cons (computeTransforms pt prm c) (computeTransformsF pt prm rest)
termination_by structural f => f

end

/-! ## Visibility (`VRONode::updateVisibility` / `setVisibilityRecursive`) -/

/-- The tri-valued frustum classification (`VROFrustumResult`). -/
inductive VROFrustumResult where
  | Inside
  | Intersects
  | Outside
deriving DecidableEq, Repr

/-- Modelled from the spec: the camera/frustum provider (`VROFrustum`, not in
the sources under study) "exposes ... a tri-valued box-classification test";
it is an arbitrary function from boxes to the tri-valued result. -/
def Frustum : Type := Box → VROFrustumResult

mutual

/-- `VRONode::computeUmbrellaBounds`: destructively union this node's bounding
box into the accumulator, then recurse into the children. -/
def computeUmbrellaBounds : VTree → Box → Box
  | .node d f, b => computeUmbrellaBoundsF f (boxUnion b (getBoundingBoxD d))
termination_by structural t => t

/-- The children loop of `computeUmbrellaBounds`. -/
def computeUmbrellaBoundsF : VForest → Box → Box
  | .nil, b => b
  | .cons c rest, b => computeUmbrellaBoundsF rest (computeUmbrellaBounds c b)
termination_by structural f => f

end

mutual

/-- `VRONode::setVisibilityRecursive(visible)`. -/
def setVisibilityRecursive (v : Bool) : VTree → VTree
  | .node d f => .node { d with visible := v } (setVisibilityRecursiveF v f)
termination_by structural t => t

/-- The children loop of `setVisibilityRecursive`. -/
def setVisibilityRecursiveF (v : Bool) : VForest → VForest
  | .nil => .nil
  | .cons c rest => .cons (setVisibilityRecursive v c) (setVisibilityRecursiveF v rest)
termination_by structural f => f

end

mutual

/-- `VRONode::updateVisibility`: recompute the umbrella bounding box (a
zero-size box at the node's computed position unioned with the whole subtree's
boxes), classify it against the frustum, and either mark the whole subtree
visible (`Inside`, or the frustum test globally disabled), mark this node
visible and refine the children (`Intersects`), or mark the whole subtree
invisible (`Outside`). -/
def updateVisibility (fr : Frustum) : VTree → VTree
  | .node d f =>
    let ub := computeUmbrellaBounds (.node d f) (pointBox d.computedPosition)
    let d' := { d with umbrellaBoundingBox := ub }
    if fr ub = .Inside ∨ kEnableVisibilityFrustumTest = false then
      setVisibilityRecursive true (.node d' f)
    else if fr ub = .Intersects then
      .node { d' with visible := true } (updateVisibilityF fr f)
    else
      setVisibilityRecursive false (.node d' f)
termination_by structural t => t

/-- The children loop of the `Intersects` branch of `updateVisibility`. -/
def updateVisibilityF (fr : Frustum) : VForest → VForest
  | .nil => .nil
  | .cons c rest => .cons (updateVisibility fr c) (updateVisibilityF fr rest)
termination_by structural f => f

end

/-! ## Sort keys (`VRONode::updateSortKeys`) and rendering inclusion
(`VRONode::render(elementIndex, ...)`).

The per-frame sort-key pass is embedded as a function over the tree.  The
C++ stacks in `VRORenderParameters` (`opacities`, `hierarchyDepths`,
`distancesFromCamera`) always hold, at each recursive call, the parent's
pushed value on top; they are modelled by passing those top values as
parameters, recursion handling push/pop.  The counter `hierarchyId` and the
running maximum `furthestDistanceFromCamera` are genuinely mutated across the
traversal and are threaded as state.  The call
`_geometry->updateSortKeys(this, hierarchyId, hierarchyDepth, ..., opacity,
distanceFromCamera, ...)` is recorded in an output log (one entry per node
with geometry).  Light culling and the light hash, which no claim mentions,
take no part in the control flow modelled here; nodes are modelled with no
pending actions, so the leading `processActions()` is a no-op. -/

/-- Collaborator-supplied camera geometry for the sort pass, modelling
`_computedBoundingBox.getCenter().distance(camera.getPosition())` and
`getBoundingBox().getFurthestDistanceToPoint(camera.getPosition())` (the
`VROVector3f`/`VROBoundingBox` metric functions are not in the sources under
study; a camera position together with the two distance functions is folded
into two box-valued functions). -/
structure SortCtx where
  distToCamera : Box → ℚ
  furthestToCamera : Box → ℚ

/-- The mutable traversal state of the sort pass. -/
structure SortState where
  hierarchyId : ℕ
  furthestDistanceFromCamera : ℚ
deriving DecidableEq, Repr

/-- One recorded call to `_geometry->updateSortKeys`. -/
structure SortLogEntry where
  uid : ℕ
  hierarchyId : ℕ
  hierarchyDepth : ℤ
  opacity : ℚ
  distanceFromCamera : ℚ
deriving DecidableEq, Repr

/-- The per-node body of `updateSortKeys` (everything between the visibility
early-out and the recursion into the children): the updated node state, the
hierarchy depth and camera distance pushed for the children, the traversal
state after this node, and the recorded geometry sort-key call. -/
structure SortNodeResult where
  upd : NodeData
  pushedDepth : ℤ
  pushedDist : ℚ
  st' : SortState
  log : List SortLogEntry

/-- The straight-line body of `updateSortKeys` for a visible node: compute the
inverse-transpose transform and composite opacity; classify the node's
hierarchical-rendering status from its flag and the parent's pushed hierarchy
depth (`isParentHierarchical ↔ parent depth ≥ 0`); bump the hierarchy id at a
hierarchy top; share the parent's pushed camera distance for hierarchical
non-top nodes, and recompute it from the bounding box otherwise when geometry
is present (also tracking the furthest distance); record the
`_geometry->updateSortKeys` call when geometry is present. -/
def updateSortKeysNode (ctx : SortCtx) (pOp : ℚ) (pHD : ℤ) (pDist : ℚ)
    (d : NodeData) (st : SortState) : SortNodeResult :=
  let cOp := pOp * d.opacity * d.opacityFromHiddenFlag
  let isParentHierarchical : Bool := decide (0 ≤ pHD)
  let isHierarchical : Bool := d.hierarchicalRendering || isParentHierarchical
  let isTopOfHierarchy : Bool := d.hierarchicalRendering && !isParentHierarchical
  let hierarchyDepth : ℤ := if isHierarchical then pHD + 1 else 0
  let pushedDepth : ℤ := if isHierarchical then pHD + 1 else -1
  let st1 : SortState :=
    if isHierarchical && isTopOfHierarchy then
      { st with hierarchyId := st.hierarchyId + 1 }
    else st
  let hierarchyId : ℕ := if isHierarchical then st1.hierarchyId else 0
  let dist0 : ℚ := if isHierarchical && !isTopOfHierarchy then pDist else 0
  let distanceFromCamera : ℚ :=
    if d.geometry.isSome && (!isHierarchical || isTopOfHierarchy) then
      ctx.distToCamera d.computedBoundingBox
    else dist0
  let furthest : ℚ :=
    if d.geometry.isSome && (!isHierarchical || isTopOfHierarchy) then
      ctx.furthestToCamera (getBoundingBoxD d)
    else 0
  let log0 : List SortLogEntry :=
    if d.geometry.isSome then
      [⟨d.uid, hierarchyId, hierarchyDepth, cOp, distanceFromCamera⟩]
    else []
  { upd := { d with
      computedOpacity := cOp
      computedInverseTransposeTransform := (inv4 d.computedTransform).transpose }
    pushedDepth := pushedDepth
    pushedDist := distanceFromCamera
    st' := { st1 with
      furthestDistanceFromCamera := max st1.furthestDistanceFromCamera furthest }
    log := log0 }

mutual

/-- `VRONode::updateSortKeys`: skip invisible subtrees entirely; otherwise run
the per-node body and recurse into the children with the freshly computed
composite opacity and the pushed hierarchy depth and camera distance,
threading the traversal state and concatenating the recorded geometry calls
in traversal order. -/
def updateSortKeysT (ctx : SortCtx) (pOp : ℚ) (pHD : ℤ) (pDist : ℚ) :
    VTree → SortState → VTree × SortState × List SortLogEntry
  | .node d f, st =>
    if d.visible = false then (.node d f, st, [])
    else
      let r := updateSortKeysNode ctx pOp pHD pDist d st
      let out := updateSortKeysF ctx r.upd.computedOpacity r.pushedDepth r.pushedDist f r.st'
      (.node r.upd out.1, out.2.1, r.log ++ out.2.2)
termination_by structural t => t

/-- The children loop of `updateSortKeys`. -/
def updateSortKeysF (ctx : SortCtx) (pOp : ℚ) (pHD : ℤ) (pDist : ℚ) :
    VForest → SortState → VForest × SortState × List SortLogEntry
  | .nil, st => (.nil, st, [])
  | .cons c rest, st =>
    let outc := updateSortKeysT ctx pOp pHD pDist c st
    let outr := updateSortKeysF ctx pOp pHD pDist rest outc.2.1
    (.cons outc.1 outr.1, outr.2.1, outc.2.2 ++ outr.2.2)
termination_by structural f => f

end

/-- The guard of `VRONode::render(elementIndex, material, context, driver)`:
the node's geometry is rendered exactly when a geometry is attached and the
composite opacity is strictly above the hidden threshold. -/
def rendersGeometry (d : NodeData) : Bool :=
  d.geometry.isSome && decide (kHiddenOpacityThreshold < d.computedOpacity)

/-! ## Sort-key collection (`VRONode::getSortKeysForVisibleNodes`) -/

mutual

/-- `VRONode::getSortKeysForVisibleNodes`: add this node's geometry keys when
it is visible, has geometry, and is of `Normal` type, then search down the
graph, stopping at any child that is a portal or portal frame. -/
def getSortKeysT : VTree → List ℕ
  | .node d f =>
    (match d.geometry with
     | some g => if d.visible && d.type = .Normal then g.keys else []
     | none => []) ++ getSortKeysF f
termination_by structural t => t

/-- The children loop of `getSortKeysForVisibleNodes`: recurse only into
children of `Normal` type. -/
def getSortKeysF : VForest → List ℕ
  | .nil => []
  | .cons c rest =>
    (if c.data.type = .Normal then getSortKeysT c else []) ++ getSortKeysF rest
termination_by structural f => f

end

/-! ## Hit testing (`VRONode::hitTest`) -/

/-- Collaborator-supplied ray geometry for the hit test, folding in the fixed
ray origin and direction: `intersectRay` models
`VROBoundingBox::intersectsRay(ray, origin, &intPt)` (not in the sources under
study), `geomHit` models the triangle-level `hitTestGeometry(origin, ray,
transform)` (geometry bytes are external), `rayDist` models
`origin.distance(intPt)`. -/
structure HitCtx where
  intersectRay : Box → Option V3
  geomHit : NodeData → Bool
  rayDist : V3 → ℚ

/-- One entry of the accumulated `std::vector<VROHitTestResult>`. -/
structure HitResult where
  nodeUid : ℕ
  point : V3
  distance : ℚ
deriving DecidableEq, Repr

mutual

/-- `VRONode::hitTest(camera, origin, ray, boundsOnly, results)`: return
immediately (without recursing) when the node is not selectable; downgrade
`boundsOnly` when high-accuracy gaze is set (the downgraded flag is also what
the children receive); for a visible node with geometry above the hidden
opacity threshold, test the ray against the bounding box and, if that hits,
record a result when `boundsOnly` holds or the triangle-level test hits;
finally recurse into the children. -/
def hitTestT (ctx : HitCtx) (boundsOnly : Bool) : VTree → List HitResult
  | .node d f =>
    if d.selectable = false then []
    else
      let b := boundsOnly && !d.highAccuracyGaze
      let own : List HitResult :=
        if d.geometry.isSome && decide (kHiddenOpacityThreshold < d.computedOpacity)
            && d.visible then
          match ctx.intersectRay (getBoundingBoxD d) with
          | some intPt =>
            if b || ctx.geomHit d then [⟨d.uid, intPt, ctx.rayDist intPt⟩] else []
          | none => []
        else []
      own ++ hitTestF ctx b f
termination_by structural t => t

/-- The children loop of `hitTest`. -/
def hitTestF (ctx : HitCtx) (boundsOnly : Bool) : VForest → List HitResult
  | .nil => []
  | .cons c rest => hitTestT ctx boundsOnly c ++ hitTestF ctx boundsOnly rest
termination_by structural f => f

end

/-! ## Scene attach/detach and physics registration (`VRONode::setScene`)

Modelled from the spec where `VROScene`/`VROPhysicsWorld` are concerned (they
are not in the sources under study): the physics world "accepts/removes a
physics-body handle keyed by node"; `VROScene::getPhysicsWorld()` creates the
world lazily while `hasPhysicsWorld()` only tests for it.  The registration
list of each scene's world and the add/remove calls issued to it are made
explicit so the claims about call counts can be stated. -/

/-- A physics world: the list of registered body handles. -/
structure PhysWorld where
  bodies : List ℕ
deriving DecidableEq, Repr

/-- An `addPhysicsBody`/`removePhysicsBody` call on a scene's physics world. -/
inductive PhysEvent where
  | add (scene body : ℕ)
  | remove (scene body : ℕ)
deriving DecidableEq, Repr

/-- Global physics state: the (lazily created) physics world of every scene,
plus the log of all add/remove calls issued so far. -/
structure PhysState where
  worlds : ℕ → Option PhysWorld
  events : List PhysEvent

/-- Pointwise world update. -/
def updWorlds (ws : ℕ → Option PhysWorld) (s : ℕ) (w : PhysWorld) :
    ℕ → Option PhysWorld :=
  fun s' => if s' = s then some w else ws s'

/-- `VROPhysicsWorld::removePhysicsBody`, keyed removal of a handle. -/
def removePhysicsBody (w : PhysWorld) (b : ℕ) : PhysWorld :=
  ⟨w.bodies.filter (fun x => x != b)⟩

/-- `VROPhysicsWorld::addPhysicsBody`. -/
def addPhysicsBody (w : PhysWorld) (b : ℕ) : PhysWorld :=
  ⟨w.bodies ++ [b]⟩

/-- The per-node body of `VRONode::setScene`: if currently attached to a scene
that has a physics world and this node owns a physics body, remove the body
from that world; reassign `_scene`; if attaching to a scene and a body is
owned, get-or-create the new scene's physics world and add the body to it. -/
def setSceneData (ns : Option ℕ) (d : NodeData) (st : PhysState) :
    NodeData × PhysState :=
  let st1 : PhysState :=
    match d.scene, d.physicsBody with
    | some cs, some b =>
      match st.worlds cs with
      | some w =>
        { worlds := updWorlds st.worlds cs (removePhysicsBody w b),
          events := st.events ++ [.remove cs b] }
      | none => st
    | _, _ => st
  let d' := { d with scene := ns }
  let st2 : PhysState :=
    match ns, d.physicsBody with
    | some s, some b =>
      let w := (st1.worlds s).getD ⟨[]⟩
      { worlds := updWorlds st1.worlds s (addPhysicsBody w b),
        events := st1.events ++ [.add s b] }
    | _, _ => st1
  (d', st2)

mutual

/-- `VRONode::setScene(scene, recursive)`. -/
def setSceneT (ns : Option ℕ) (rcv : Bool) : VTree → PhysState → VTree × PhysState
  | .node d f, st =>
    let p := setSceneData ns d st
    if rcv then
      let q := setSceneF ns rcv f p.2
      (.node p.1 q.1, q.2)
    else
      (.node p.1 f, p.2)
termination_by structural t => t

/-- The children loop of the recursive branch of `setScene`. -/
def setSceneF (ns : Option ℕ) (rcv : Bool) : VForest → PhysState → VForest × PhysState
  | .nil, st => (.nil, st)
  | .cons c rest, st =>
    let p := setSceneT ns rcv c st
    let q := setSceneF ns rcv rest p.2
    (.cons p.1 q.1, q.2)
termination_by structural f => f

end

mutual

/-- The physics-body handles owned by the nodes of a subtree, in traversal
order. -/
def treeBodies : VTree → List ℕ
  | .node d f => (match d.physicsBody with | some b => [b] | none => []) ++ forestBodies f
termination_by structural t => t

/-- `treeBodies` over a forest. -/
def forestBodies : VForest → List ℕ
  | .nil => []
  | .cons c rest => treeBodies c ++ forestBodies rest
termination_by structural f => f

end

mutual

/-- Whether every node of a subtree has `_scene` equal to `o`. -/
def allSceneT (o : Option ℕ) : VTree → Bool
  | .node d f => (d.scene == o) && allSceneF o f
termination_by structural t => t

/-- `allSceneT` over a forest. -/
def allSceneF (o : Option ℕ) : VForest → Bool
  | .nil => true
  | .cons c rest => allSceneT o c && allSceneF o rest
termination_by structural f => f

end

/-! ## Atomic transform path (`VRONode::setPositionAtomic` /
`setRotationAtomic` / `setScaleAtomic` / `computeTransformsAtomic` /
`doComputeTransformsAtomic`) -/

/-- A write to one of the three local atomic transform fields. -/
inductive AtomicWrite where
  | pos (p : V3)
  | rot (r : M4)
  | scl (s : V3)

/-- The store into the written atomic cell (`_lastPosition.store(position)`,
`_lastRotation.store(rotation)` or `_lastScale.store(scale)`). -/
def storeAtomic (w : AtomicWrite) (d : NodeData) : NodeData :=
  match w with
  | .pos p => { d with lastPosition := p }
  | .rot r => { d with lastRotation := r }
  | .scl s => { d with lastScale := s }

/-- `VRONode::doComputeTransformsAtomic(parentTransform)`: identical to
`doComputeTransform` except that it operates on the atomic fields and ignores
scale and rotation pivots (per the code comment, pivots are unsupported on
this path); sets `_lastComputedTransform`, `_lastComputedPosition` and
`_lastComputedBoundingBox` (from the geometry's atomic bounding-box mirror, or
a zero-size box at the computed position). -/
def doComputeTransformsAtomic (pt : M4) (d : NodeData) : NodeData :=
  let transform := pt * (translateM d.lastPosition * (d.lastRotation * scaleM d.lastScale))
  let cp := transCol transform
  { d with
    lastComputedPosition := cp
    lastComputedBoundingBox :=
      match d.geometry with
      | some g => boxTransform g.lastBBox transform
      | none => pointBox cp
    lastComputedTransform := transform }

/-- `VRONode::computeTransformsAtomic(parentTransform, parentRotation)`:
`doComputeTransformsAtomic` followed by
`_lastComputedRotation.store(parentRotation * _lastRotation.getMatrix())`.
Recursion into the children is explicitly disabled in the code (VIRO-3692:
subnodes cannot be accessed safely from a foreign thread). -/
def computeTransformsAtomicPR (pt prm : M4) (d : NodeData) : NodeData :=
  { doComputeTransformsAtomic pt d with lastComputedRotation := prm * d.lastRotation }

/-- One atomic setter call (`setPositionAtomic` / `setRotationAtomic` /
`setScaleAtomic`) on a single node: store the written cell, then
`computeTransformsAtomic()` using the parent's last-synchronized world
transform and rotation (identity when there is no parent). -/
def atomicWriteData (parent : Option NodeData) (w : AtomicWrite) (d : NodeData) :
    NodeData :=
  let pt : M4 := match parent with | some p => p.lastComputedTransform | none => 1
  let prm : M4 := match parent with | some p => p.lastComputedRotation | none => 1
  computeTransformsAtomicPR pt prm (storeAtomic w d)

/-- Replace the `i`-th tree of a forest using `g`; out-of-range indices leave
the forest unchanged. -/
def forestModify (g : VTree → VTree) : ℕ → VForest → VForest
  | _, .nil => .nil
  | 0, .cons c rest => .cons (g c) rest
  | Nat.succ i, .cons c rest => .cons c (forestModify g i rest)

/-- An atomic setter call on the node addressed by `path` (a list of child
indices) inside a tree, the parent's atomic fields being read from the tree
itself (none for the root). -/
def atomicWriteAt (parent : Option NodeData) (w : AtomicWrite) :
    VTree → List ℕ → VTree
  | t, [] => .node (atomicWriteData parent w t.data) t.children
  | .node d f, i :: rest =>
    .node d (forestModify (fun c => atomicWriteAt (some d) w c rest) i f)

/-- The `i`-th tree of a forest. -/
def forestGet : ℕ → VForest → Option VTree
  | _, .nil => none
  | 0, .cons c _ => some c
  | Nat.succ i, .cons _ rest => forestGet i rest

/-- The node state addressed by a path of child indices. -/
def nodeAt : VTree → List ℕ → Option NodeData
  | t, [] => some t.data
  | .node _ f, i :: rest => (forestGet i f).bind (fun c => nodeAt c rest)

/-- The canonical (non-atomic) fields of a node, used to state that the atomic
path leaves every canonical field untouched. -/
structure CanonicalView where
  uid : ℕ
  type : VRONodeType
  position : V3
  scale : V3
  rotation : M4
  rotationPivot : Option (M4 × M4)
  scalePivot : Option (M4 × M4)
  opacity : ℚ
  opacityFromHiddenFlag : ℚ
  hidden : Bool
  selectable : Bool
  highAccuracyGaze : Bool
  hierarchicalRendering : Bool
  visible : Bool
  geometry : Option Geom
  physicsBody : Option ℕ
  scene : Option ℕ
  computedTransform : M4
  computedRotation : M4
  computedPosition : V3
  computedBoundingBox : Box
  umbrellaBoundingBox : Box
  computedOpacity : ℚ
  computedInverseTransposeTransform : M4

/-- Projection of a node's canonical fields. -/
def NodeData.canonical (d : NodeData) : CanonicalView :=
  ⟨d.uid, d.type, d.position, d.scale, d.rotation, d.rotationPivot, d.scalePivot,
   d.opacity, d.opacityFromHiddenFlag, d.hidden, d.selectable, d.highAccuracyGaze,
   d.hierarchicalRendering, d.visible, d.geometry, d.physicsBody, d.scene,
   d.computedTransform, d.computedRotation, d.computedPosition,
   d.computedBoundingBox, d.umbrellaBoundingBox, d.computedOpacity,
   d.computedInverseTransposeTransform⟩

/-! ## FBX skeletal-animation loading
(`VROFBXLoader::loadFBXSkeletalAnimation`) -/

/-- One protobuf animation frame (`viro::Node::SkeletalAnimation::Frame`):
a timestamp, repeated bone indices and repeated 16-float transforms. -/
structure FramePB where
  time : ℚ
  boneIndex : List ℕ
  transform : List (List ℚ)
deriving DecidableEq, Repr

/-- The protobuf skeletal animation (`viro::Node_SkeletalAnimation`). -/
structure SkeletalAnimationPB where
  frames : List FramePB
  duration : ℚ
  name : String
deriving DecidableEq, Repr

/-- A 16-float column-major protobuf matrix turned into a `VROMatrix4f`
(`mtx[i] = transform(b).value(i)`, missing repeated values defaulting to 0). -/
def toMtx (vals : List ℚ) : M4 :=
  Matrix.of fun i j : Fin 4 => vals.getD (j.val * 4 + i.val) 0

/-- A loaded `VROSkeletalAnimationFrame`. -/
structure SkeletalAnimationFrame where
  time : ℚ
  boneIndices : List ℕ
  boneTransforms : List M4

/-- A loaded `VROSkeletalAnimation`. -/
structure SkeletalAnimation where
  frames : List SkeletalAnimationFrame
  duration : ℚ
  name : String

/-- Loading of one frame: the code asserts
`passert(frame_pb.bone_index_size() == frame_pb.transform_size())` — modelled
as `none` on mismatch — and then pairs `bone_index(b)` with the matrix built
from `transform(b)` for every `b`. -/
def loadFrame (f : FramePB) : Option SkeletalAnimationFrame :=
  if f.boneIndex.length = f.transform.length then
    some ⟨f.time, f.boneIndex, f.transform.map toMtx⟩
  else none

/-- `VROFBXLoader::loadFBXSkeletalAnimation`: load every frame in order (a
fatal assertion in any frame aborts the whole load), then assemble the
animation with its duration and name. -/
def loadFBXSkeletalAnimation (pb : SkeletalAnimationPB) : Option SkeletalAnimation :=
  (pb.frames.mapM loadFrame).map (fun fs => ⟨fs, pb.duration, pb.name⟩)

/-! ## Basic lemmas about the transform pass -/

/-- The transform pass leaves every local (input) field of a node unchanged,
so the local matrix it would build is unchanged. -/
theorem localTransform_computeTransformsData (pt prm : M4) (d : NodeData) :
    localTransform (computeTransformsData pt prm d) = localTransform d := rfl

/-- The root of a transformed tree carries `parentTransform * localTransform`. -/
theorem computeTransforms_root_transform (pt prm : M4) (t : VTree) :
    (computeTransforms pt prm t).data.computedTransform = pt * localTransform t.data := by
  cases t with
  | node d f => rfl

/-- The root of a transformed tree carries `parentRotation * rotation`. -/
theorem computeTransforms_root_rotation (pt prm : M4) (t : VTree) :
    (computeTransforms pt prm t).data.computedRotation = prm * t.data.rotation := by
  cases t with
  | node d f => rfl

/-- The root of a transformed tree has its position extracted from the
translation column of its computed transform. -/
theorem computeTransforms_root_position (pt prm : M4) (t : VTree) :
    (computeTransforms pt prm t).data.computedPosition
      = transCol (computeTransforms pt prm t).data.computedTransform := by
  cases t with
  | node d f => rfl

/-- One application of the per-node transform computation is idempotent: all
inputs it reads are local fields it does not modify. -/
theorem computeTransformsData_idem (pt prm : M4) (d : NodeData) :
    computeTransformsData pt prm (computeTransformsData pt prm d)
      = computeTransformsData pt prm d := rfl

mutual

/-- Idempotence of the transform pass on a tree. -/
theorem computeTransforms_idem : ∀ (t : VTree) (pt prm : M4),
    computeTransforms pt prm (computeTransforms pt prm t) = computeTransforms pt prm t
  | .node d f, pt, prm => by
    simp only [computeTransforms]
    rw [computeTransformsData_idem]
    rw [computeTransformsF_idem f]

/-- Idempotence of the transform pass on a forest. -/
theorem computeTransformsF_idem : ∀ (f : VForest) (pt prm : M4),
    computeTransformsF pt prm (computeTransformsF pt prm f) = computeTransformsF pt prm f
  | .nil, _, _ => rfl
  | .cons c rest, pt, prm => by
    simp only [computeTransformsF]
    rw [computeTransforms_idem c, computeTransformsF_idem rest]

end

/-- C8.  The transform pass is idempotent: running `computeTransforms` twice
with the same parent transform and rotation arguments and no intervening
mutation yields a tree identical to the one obtained after a single run — in
particular all computed world transforms, rotations, positions and bounding
boxes coincide. -/
theorem c8_transform_pass_idempotent (pt prm : M4) (t : VTree) :
    computeTransforms pt prm (computeTransforms pt prm t) = computeTransforms pt prm t :=
  computeTransforms_idem t pt prm

/-! ## C1: hierarchical transform composition -/

/-- The node state at the root of a transformed tree. -/
theorem computeTransforms_data (pt prm : M4) (t : VTree) :
    (computeTransforms pt prm t).data = computeTransformsData pt prm t.data := by
  cases t with
  | node d f => rfl

mutual

/-- Every subtree of a transform-pass result extracts its position from the
translation column and relates each child's transform to its own by the
child's local matrix. -/
theorem c1AuxT : ∀ (t : VTree) (pt prm : M4) (s : VTree),
    Occurs s (computeTransforms pt prm t) →
    s.data.computedPosition = transCol s.data.computedTransform ∧
    (∀ c, VForest.Mem c s.children →
      c.data.computedTransform = s.data.computedTransform * localTransform c.data)
  | .node d f, pt, prm, s, hocc => by
    simp only [computeTransforms] at hocc
    cases hocc with
    | refl =>
      constructor
      · rfl
      · intro c hc
        simp only [VTree.children_node] at hc
        have h := (c1AuxF f (computeTransformsData pt prm d).computedTransform
          (computeTransformsData pt prm d).computedRotation c hc).1
        simpa using h
    | step c _ _ hmem hocc2 =>
      exact (c1AuxF f (computeTransformsData pt prm d).computedTransform
        (computeTransformsData pt prm d).computedRotation c hmem).2 s hocc2

/-- Members of a transformed forest carry `parentTransform * localTransform`,
and all of their subtrees satisfy the `c1AuxT` property. -/
theorem c1AuxF : ∀ (f : VForest) (pt prm : M4) (c : VTree),
    VForest.Mem c (computeTransformsF pt prm f) →
    (c.data.computedTransform = pt * localTransform c.data ∧
     ∀ s, Occurs s c →
       s.data.computedPosition = transCol s.data.computedTransform ∧
       (∀ c2, VForest.Mem c2 s.children →
         c2.data.computedTransform = s.data.computedTransform * localTransform c2.data))
  | .cons h rest, pt, prm, c, hmem => by
    simp only [computeTransformsF] at hmem
    cases hmem with
    | head =>
      refine ⟨?_, fun s hocc => c1AuxT h pt prm s hocc⟩
      rw [computeTransforms_root_transform pt prm h, computeTransforms_data,
        localTransform_computeTransformsData]
    | tail _ _ hmem2 =>
      exact c1AuxF rest pt prm c hmem2

end

/-- C1.  After a transform pass over a tree: the local matrix is
`T · (Pᵣ · R · Pᵣ⁻¹) · (Pₛ · S · Pₛ⁻¹)` when the rotation and scale pivots are
set (the second component of each stored pivot pair being the inverse
maintained by `setRotationPivot`/`setScalePivot`) and `T · R · S` when no
pivots are set; every node's computed world transform is its parent's computed
world transform times its local matrix (the identity parent transform for the
root of the pass); and every node's computed world position is the translation
column of its computed world transform. -/
theorem c1_transform_composition :
    (∀ (d : NodeData) (pr pri ps psi : M4),
       d.rotationPivot = some (pr, pri) → d.scalePivot = some (ps, psi) →
       localTransform d
         = translateM d.position * (pr * d.rotation * pri) * (ps * scaleM d.scale * psi))
  ∧ (∀ d : NodeData, d.rotationPivot = none → d.scalePivot = none →
       localTransform d = translateM d.position * d.rotation * scaleM d.scale)
  ∧ (∀ (pt prm : M4) (t s : VTree), Occurs s (computeTransforms pt prm t) →
       s.data.computedPosition = transCol s.data.computedTransform ∧
       (∀ c, VForest.Mem c s.children →
         c.data.computedTransform = s.data.computedTransform * localTransform c.data))
  ∧ (∀ (prm : M4) (t : VTree),
       (computeTransforms 1 prm t).data.computedTransform = localTransform t.data) := by
  refine ⟨?_, ?_, ?_, ?_⟩
  · intro d pr pri ps psi hr hs
    simp only [localTransform, hr, hs]
    simp [mul_assoc]
  · intro d hr hs
    simp only [localTransform, hr, hs]
    simp [mul_assoc]
  · intro pt prm t s hocc
    exact c1AuxT t pt prm s hocc
  · intro prm t
    rw [computeTransforms_root_transform, one_mul]

/-- Witness for C1: the pivot-free and fully-pivoted local-matrix formulas at
concrete nodes. -/
theorem c1_transform_composition_witness :
    localTransform defaultData
      = translateM defaultData.position * defaultData.rotation * scaleM defaultData.scale
  ∧ localTransform { defaultData with rotationPivot := some (1, 1), scalePivot := some (1, 1) }
      = translateM defaultData.position * (1 * defaultData.rotation * 1)
          * (1 * scaleM defaultData.scale * 1) :=
  ⟨c1_transform_composition.2.1 defaultData rfl rfl,
   c1_transform_composition.1 _ 1 1 1 1 rfl rfl⟩

/-! ## C2: visibility is monotone down the tree -/

/-- `Occurs` is transitive. -/
theorem occurs_trans : ∀ {b c : VTree}, Occurs b c → ∀ {a : VTree}, Occurs a b → Occurs a c := by
  intro b c hbc
  induction hbc with
  | refl => intro a h; exact h
  | step c' d f hmem _ ih => intro a h; exact .step a c' d f hmem (ih h)

mutual

/-- Every subtree of `setVisibilityRecursive v t` has visibility `v`. -/
theorem setVisRecAllT : ∀ (t : VTree) (v : Bool) (s : VTree),
    Occurs s (setVisibilityRecursive v t) → s.data.visible = v
  | .node d f, v, s, hocc => by
    simp only [setVisibilityRecursive] at hocc
    cases hocc with
    | refl => rfl
    | step c _ _ hmem hocc2 => exact setVisRecAllF f v c hmem s hocc2

/-- Forest version of `setVisRecAllT`. -/
theorem setVisRecAllF : ∀ (f : VForest) (v : Bool) (c : VTree),
    VForest.Mem c (setVisibilityRecursiveF v f) → ∀ s, Occurs s c → s.data.visible = v
  | .cons h rest, v, c, hmem, s, hocc => by
    simp only [setVisibilityRecursiveF] at hmem
    cases hmem with
    | head => exact setVisRecAllT h v s hocc
    | tail _ _ hmem2 => exact setVisRecAllF rest v c hmem2 s hocc

end

mutual

/-- In a tree produced by `updateVisibility`, any invisible subtree is
invisible throughout. -/
theorem c2AuxT : ∀ (t : VTree) (fr : Frustum) (s : VTree),
    Occurs s (updateVisibility fr t) → s.data.visible = false →
    ∀ s2, Occurs s2 s → s2.data.visible = false
  | .node d f, fr, s, hocc, hvis, s2, hocc2 => by
    simp only [updateVisibility] at hocc
    split at hocc
    · have h := setVisRecAllT _ true s hocc
      rw [h] at hvis
      cases hvis
    · split at hocc
      · cases hocc with
        | refl => simp at hvis
        | step c _ _ hmem hocc3 => exact c2AuxF f fr c hmem s hocc3 hvis s2 hocc2
      · exact setVisRecAllT _ false s2 (occurs_trans hocc hocc2)

/-- Forest version of `c2AuxT` for the `Intersects` branch. -/
theorem c2AuxF : ∀ (f : VForest) (fr : Frustum) (c : VTree),
    VForest.Mem c (updateVisibilityF fr f) → ∀ s, Occurs s c → s.data.visible = false →
    ∀ s2, Occurs s2 s → s2.data.visible = false
  | .cons h rest, fr, c, hmem, s, hocc, hvis, s2, hocc2 => by
    simp only [updateVisibilityF] at hmem
    cases hmem with
    | head => exact c2AuxT h fr s hocc hvis s2 hocc2
    | tail _ _ hmem2 => exact c2AuxF rest fr c hmem2 s hocc hvis s2 hocc2

end

/-- C2.  Immediately after a visibility pass over a tree, visibility is
monotone down the tree: for every subtree whose root is invisible, every node
of that subtree (in particular every descendant) is invisible — for an
arbitrary frustum classification. -/
theorem c2_visibility_monotone (fr : Frustum) (t : VTree) :
    ∀ s, Occurs s (updateVisibility fr t) → s.data.visible = false →
    ∀ s2, Occurs s2 s → s2.data.visible = false :=
  fun s hocc hvis s2 hocc2 => c2AuxT t fr s hocc hvis s2 hocc2

/-- A concrete two-node tree for witnesses. -/
def exPair : VTree :=
  .node { defaultData with uid := 1 }
    (.cons (.node { defaultData with uid := 2 } .nil) .nil)

/-- Witness for C2: with a frustum classifying everything `Outside`, the pass
marks the root invisible and the monotonicity theorem yields the child's
invisibility. -/
theorem c2_visibility_monotone_witness :
    ((forestGet 0 (updateVisibility (fun _ => .Outside) exPair).children).map
        (fun c => c.data.visible)) = some false := by
  have hroot : Occurs (updateVisibility (fun _ => .Outside) exPair)
      (updateVisibility (fun _ => .Outside) exPair) := .refl _
  have hvis : (updateVisibility (fun _ => .Outside) exPair).data.visible = false := rfl
  have hchild : VForest.Mem
      (setVisibilityRecursive false (.node { defaultData with uid := 2 } .nil))
      (updateVisibility (fun _ => .Outside) exPair).children := .head _ _
  have h := c2_visibility_monotone (fun _ => .Outside) exPair _ hroot hvis
    (setVisibilityRecursive false (.node { defaultData with uid := 2 } .nil))
    (.step _ _ _ _ hchild (.refl _))
  show some ((setVisibilityRecursive false
      (.node { defaultData with uid := 2 } .nil)).data.visible) = some false
  rw [h]

/-! ## C10: sort-key collection never crosses portal boundaries -/

mutual

/-- Every key collected by `getSortKeysForVisibleNodes` comes from a visible
`Normal` node with geometry somewhere in the tree. -/
theorem c10AuxT : ∀ (t : VTree) (k : ℕ), k ∈ getSortKeysT t →
    ∃ s, Occurs s t ∧ s.data.visible = true ∧ s.data.type = .Normal ∧
      ∃ g, s.data.geometry = some g ∧ k ∈ g.keys
  | .node d f, k, hk => by
    simp only [getSortKeysT, List.mem_append] at hk
    cases hk with
    | inl h =>
      split at h
      case h_1 g hg =>
        split at h
        case isTrue hc =>
          refine ⟨.node d f, .refl _, ?_, ?_, g, hg, h⟩
          · exact (Bool.and_eq_true _ _).mp hc |>.1
          · have := (Bool.and_eq_true _ _).mp hc |>.2
            exact of_decide_eq_true this
        case isFalse => simp at h
      case h_2 => simp at h
    | inr h =>
      obtain ⟨c, hmem, s, hocc, hprops⟩ := c10AuxF f k h
      exact ⟨s, .step s c d f hmem hocc, hprops⟩

/-- Forest version of `c10AuxT`. -/
theorem c10AuxF : ∀ (f : VForest) (k : ℕ), k ∈ getSortKeysF f →
    ∃ c, VForest.Mem c f ∧ ∃ s, Occurs s c ∧
      (s.data.visible = true ∧ s.data.type = .Normal ∧
       ∃ g, s.data.geometry = some g ∧ k ∈ g.keys)
  | .cons h rest, k, hk => by
    simp only [getSortKeysF, List.mem_append] at hk
    cases hk with
    | inl hmem =>
      split at hmem
      case isTrue =>
        obtain ⟨s, hocc, hprops⟩ := c10AuxT h k hmem
        exact ⟨h, .head _ _, s, hocc, hprops⟩
      case isFalse => simp at hmem
    | inr hmem =>
      obtain ⟨c, hc, rest2⟩ := c10AuxF rest k hmem
      exact ⟨c, .tail _ _ _ hc, rest2⟩

end

/-- C10.  `getSortKeysForVisibleNodes` gathers keys only from visible nodes of
kind `Normal`, and it never descends into a child of kind `Portal` or
`PortalFrame`: the keys collected do not depend in any way on the contents of
a non-`Normal` child's subtree, so no geometry inside a portal or portal-frame
subtree contributes a key to the enclosing collection. -/
theorem c10_sort_keys_portal_boundary :
    (∀ (t : VTree) (k : ℕ), k ∈ getSortKeysT t →
       ∃ s, Occurs s t ∧ s.data.visible = true ∧ s.data.type = .Normal ∧
         ∃ g, s.data.geometry = some g ∧ k ∈ g.keys)
  ∧ (∀ (c c' : VTree) (f : VForest),
       c.data.type ≠ .Normal → c'.data.type ≠ .Normal →
       getSortKeysF (.cons c f) = getSortKeysF (.cons c' f)) := by
  constructor
  · exact fun t k hk => c10AuxT t k hk
  · intro c c' f hc hc'
    simp only [getSortKeysF, if_neg hc, if_neg hc']

/-- A visible `Normal` node carrying geometry with keys, for witnesses. -/
def exKeyNode : VTree :=
  .node { defaultData with
    uid := 3
    visible := true
    geometry := some ⟨pointBox ⟨0, 0, 0⟩, pointBox ⟨0, 0, 0⟩, [5]⟩ } .nil

/-- A portal node over an arbitrary keyed subtree, for witnesses. -/
def exPortal : VTree :=
  .node { defaultData with uid := 4, type := .Portal } (.cons exKeyNode .nil)

/-- A portal-frame node with no children, for witnesses. -/
def exPortalFrame : VTree :=
  .node { defaultData with uid := 5, type := .PortalFrame } .nil

/-- Witness for C10: key 5 of a concrete tree is traced back to a visible
`Normal` geometry node, and swapping one portal child subtree for a completely
different portal-frame subtree leaves the collected keys unchanged. -/
theorem c10_sort_keys_portal_boundary_witness :
    (∃ s, Occurs s exKeyNode ∧ s.data.visible = true ∧ s.data.type = .Normal ∧
       ∃ g, s.data.geometry = some g ∧ 5 ∈ g.keys)
  ∧ getSortKeysF (.cons exPortal .nil) = getSortKeysF (.cons exPortalFrame .nil) :=
  ⟨c10_sort_keys_portal_boundary.1 exKeyNode 5 (by decide),
   c10_sort_keys_portal_boundary.2 exPortal exPortalFrame .nil (by decide) (by decide)⟩

/-! ## C4: hit testing and non-selectable nodes -/

/-- Hit-test context whose ray hits every box, for the C4 analysis. -/
def c4Ctx : HitCtx := ⟨fun _ => some ⟨0, 0, 0⟩, fun _ => true, fun _ => 0⟩

/-- A selectable, visible child with geometry and full opacity: on its own it
satisfies every per-node hit condition. -/
def c4Child : VTree :=
  .node { defaultData with
    uid := 2
    visible := true
    geometry := some ⟨pointBox ⟨0, 0, 0⟩, pointBox ⟨0, 0, 0⟩, []⟩ } .nil

/-- A non-selectable root holding `c4Child`. -/
def c4Root : VTree :=
  .node { defaultData with uid := 1, selectable := false, visible := true }
    (.cons c4Child .nil)

/-- Counterexample to C4 as stated.  The claim asserts that the subtree of a
non-selectable node is still recursed into, so that a selectable descendant
can still appear in the results.  On the code, `hitTest` returns immediately
for a non-selectable node: on a concrete input whose selectable child yields a
hit when tested on its own (second conjunct), the hit test rooted at the
non-selectable parent yields no results at all (first conjunct). -/
theorem c4_counterexample :
    hitTestT c4Ctx true c4Root = []
  ∧ hitTestT c4Ctx true c4Child = [⟨2, ⟨0, 0, 0⟩, 0⟩] := by
  constructor
  · rfl
  · simp only [hitTestT, hitTestF, c4Child, c4Ctx]
    norm_num [kHiddenOpacityThreshold, defaultData]

/-- C4 (amended).  In a hit test, a node marked non-selectable produces no hit
result and its subtree is not recursed into: a hit test rooted at a
non-selectable node returns no results at all, so selectable descendants of a
non-selectable node never appear (selectability prunes the whole subtree). -/
theorem c4_nonselectable_prunes_subtree (ctx : HitCtx) (b : Bool) (t : VTree)
    (h : t.data.selectable = false) : hitTestT ctx b t = [] := by
  cases t with
  | node d f =>
    simp only [VTree.data_node] at h
    simp [hitTestT, h]

/-- Witness for the amended C4: the concrete non-selectable root yields no
results. -/
theorem c4_nonselectable_prunes_subtree_witness : hitTestT c4Ctx true c4Root = [] :=
  c4_nonselectable_prunes_subtree c4Ctx true c4Root rfl

/-! ## C9: skeletal-animation loading and the bone/transform length assertion -/

/-- If some frame has mismatching array lengths, loading all frames fails. -/
theorem mapM_loadFrame_none : ∀ (l : List FramePB),
    (∃ fr ∈ l, fr.boneIndex.length ≠ fr.transform.length) → l.mapM loadFrame = none := by
  intro l
  induction l with
  | nil => rintro ⟨fr, hmem, _⟩; cases hmem
  | cons a as ih =>
    rintro ⟨fr, hmem, hne⟩
    rw [List.mapM_cons]
    rcases List.mem_cons.mp hmem with rfl | hmem2
    · rw [loadFrame, if_neg hne]
      rfl
    · cases ha : loadFrame a with
      | none => rfl
      | some lf =>
        have hrest : as.mapM loadFrame = none := ih ⟨fr, hmem2, hne⟩
        simp only [ha, hrest]
        rfl

/-- If every frame has matching array lengths, loading yields exactly the
positionally paired frames. -/
theorem mapM_loadFrame_all : ∀ (l : List FramePB),
    (∀ fr ∈ l, fr.boneIndex.length = fr.transform.length) →
    l.mapM loadFrame
      = some (l.map fun fr => ⟨fr.time, fr.boneIndex, fr.transform.map toMtx⟩) := by
  intro l
  induction l with
  | nil => intro _; rfl
  | cons a as ih =>
    intro h
    rw [List.mapM_cons, loadFrame, if_pos (h a (List.mem_cons_self a as))]
    rw [ih (fun fr hfr => h fr (List.mem_cons_of_mem a hfr))]
    rfl

/-- C9.  Loading a skeletal animation with any frame whose bone-index and
transform arrays differ in length terminates with the fatal assertion
(modelled as `none`) instead of producing a partially loaded animation; under
the precondition that every frame has equal-length arrays the assertion branch
is unreachable, the load succeeds, and in every loaded frame bone index `b` is
paired with the matrix built from transform `b` (in particular the two arrays
have equal length). -/
theorem c9_skeletal_animation_length_assert :
    (∀ pb : SkeletalAnimationPB,
       (∃ fr ∈ pb.frames, fr.boneIndex.length ≠ fr.transform.length) →
       loadFBXSkeletalAnimation pb = none)
  ∧ (∀ pb : SkeletalAnimationPB,
       (∀ fr ∈ pb.frames, fr.boneIndex.length = fr.transform.length) →
       loadFBXSkeletalAnimation pb
         = some ⟨pb.frames.map (fun fr => ⟨fr.time, fr.boneIndex, fr.transform.map toMtx⟩),
                 pb.duration, pb.name⟩)
  ∧ (∀ fr : FramePB, fr.boneIndex.length = fr.transform.length →
       ∃ lf, loadFrame fr = some lf ∧ lf.boneIndices = fr.boneIndex ∧
         lf.boneTransforms = fr.transform.map toMtx ∧
         lf.boneTransforms.length = lf.boneIndices.length) := by
  refine ⟨?_, ?_, ?_⟩
  · intro pb h
    rw [loadFBXSkeletalAnimation, mapM_loadFrame_none pb.frames h]
    rfl
  · intro pb h
    rw [loadFBXSkeletalAnimation, mapM_loadFrame_all pb.frames h]
    rfl
  · intro fr h
    refine ⟨⟨fr.time, fr.boneIndex, fr.transform.map toMtx⟩, ?_, rfl, rfl, ?_⟩
    · rw [loadFrame, if_pos h]
    · simpa using h.symm

/-- A matched one-frame animation for witnesses. -/
def pbGood : SkeletalAnimationPB := ⟨[⟨0, [1, 2], [[1], [2]]⟩], 1, "walk"⟩

/-- A mismatched one-frame animation for witnesses. -/
def pbBad : SkeletalAnimationPB := ⟨[⟨0, [1, 2], [[1]]⟩], 1, "walk"⟩

/-- Witness for C9 at concrete animations: the mismatched load fails, the
matched load succeeds with positionally paired frames. -/
theorem c9_skeletal_animation_length_assert_witness :
    loadFBXSkeletalAnimation pbBad = none
  ∧ loadFBXSkeletalAnimation pbGood
      = some ⟨pbGood.frames.map (fun fr => ⟨fr.time, fr.boneIndex, fr.transform.map toMtx⟩),
              pbGood.duration, pbGood.name⟩ :=
  ⟨c9_skeletal_animation_length_assert.1 pbBad (by decide),
   c9_skeletal_animation_length_assert.2.1 pbGood (by decide)⟩

/-! ## C6: physics-body registration on scene attach/detach -/

@[simp] theorem updWorlds_same (ws : ℕ → Option PhysWorld) (s : ℕ) (w : PhysWorld) :
    updWorlds ws s w s = some w := by
  simp [updWorlds]

/-- Unfolding of `setSceneT` in the recursive case. -/
theorem setSceneT_node (ns : Option ℕ) (d : NodeData) (f : VForest) (st : PhysState) :
    setSceneT ns true (.node d f) st
      = (.node (setSceneData ns d st).1 (setSceneF ns true f (setSceneData ns d st).2).1,
         (setSceneF ns true f (setSceneData ns d st).2).2) := by
  simp [setSceneT]

mutual

/-- Attaching a fully detached subtree to scene `S` issues exactly one add
call per owned physics body, in traversal order, and no remove call. -/
theorem setSceneAttachT : ∀ (t : VTree) (S : ℕ) (st : PhysState),
    allSceneT none t = true →
    (setSceneT (some S) true t st).2.events
      = st.events ++ (treeBodies t).map (PhysEvent.add S)
  | .node d f, S, st, hall => by
    simp only [allSceneT, Bool.and_eq_true, beq_iff_eq] at hall
    obtain ⟨hscene, hf⟩ := hall
    simp only [setSceneT_node, treeBodies]
    cases hb : d.physicsBody with
    | none =>
      have hd : (setSceneData (some S) d st).2 = st := by
        simp [setSceneData, hscene, hb]
      rw [hd, setSceneAttachF f S st hf]
      simp
    | some b =>
      have hd : (setSceneData (some S) d st).2
          = { worlds := updWorlds st.worlds S
                (addPhysicsBody ((st.worlds S).getD ⟨[]⟩) b),
              events := st.events ++ [.add S b] } := by
        simp [setSceneData, hscene, hb]
      rw [hd, setSceneAttachF f S _ hf]
      simp

/-- Forest version of `setSceneAttachT`. -/
theorem setSceneAttachF : ∀ (f : VForest) (S : ℕ) (st : PhysState),
    allSceneF none f = true →
    (setSceneF (some S) true f st).2.events
      = st.events ++ (forestBodies f).map (PhysEvent.add S)
  | .nil, S, st, _ => by simp [setSceneF, forestBodies]
  | .cons c rest, S, st, hall => by
    simp only [allSceneF, Bool.and_eq_true] at hall
    obtain ⟨hc, hrest⟩ := hall
    simp only [setSceneF, forestBodies]
    rw [setSceneAttachF rest S _ hrest, setSceneAttachT c S st hc]
    simp

end

mutual

/-- Detaching a subtree attached to scene `S` (whose physics world exists)
issues exactly one remove call per owned physics body and no add call, and
leaves the world existing. -/
theorem setSceneDetachT : ∀ (t : VTree) (S : ℕ) (st : PhysState),
    allSceneT (some S) t = true → (st.worlds S).isSome = true →
    (setSceneT none true t st).2.events
        = st.events ++ (treeBodies t).map (PhysEvent.remove S)
    ∧ ((setSceneT none true t st).2.worlds S).isSome = true
  | .node d f, S, st, hall, hw => by
    simp only [allSceneT, Bool.and_eq_true, beq_iff_eq] at hall
    obtain ⟨hscene, hf⟩ := hall
    simp only [setSceneT_node, treeBodies]
    obtain ⟨w, hww⟩ := Option.isSome_iff_exists.mp hw
    cases hb : d.physicsBody with
    | none =>
      have hd : (setSceneData none d st).2 = st := by
        simp [setSceneData, hscene, hb, hww]
      rw [hd]
      have h := setSceneDetachF f S st hf hw
      refine ⟨?_, h.2⟩
      rw [h.1]
      simp
    | some b =>
      have hd : (setSceneData none d st).2
          = { worlds := updWorlds st.worlds S (removePhysicsBody w b),
              events := st.events ++ [.remove S b] } := by
        simp [setSceneData, hscene, hb, hww]
      rw [hd]
      have hw2 : (({ worlds := updWorlds st.worlds S (removePhysicsBody w b), events := st.events ++ [.remove S b] } : PhysState).worlds S).isSome = true := by
        simp
      have h := setSceneDetachF f S _ hf hw2
      refine ⟨?_, h.2⟩
      rw [h.1]
      simp

/-- Forest version of `setSceneDetachT`. -/
theorem setSceneDetachF : ∀ (f : VForest) (S : ℕ) (st : PhysState),
    allSceneF (some S) f = true → (st.worlds S).isSome = true →
    (setSceneF none true f st).2.events
        = st.events ++ (forestBodies f).map (PhysEvent.remove S)
    ∧ ((setSceneF none true f st).2.worlds S).isSome = true
  | .nil, S, st, _, hw => by simp [setSceneF, forestBodies, hw]
  | .cons c rest, S, st, hall, hw => by
    simp only [allSceneF, Bool.and_eq_true] at hall
    obtain ⟨hc, hrest⟩ := hall
    simp only [setSceneF, forestBodies]
    have h1 := setSceneDetachT c S st hc hw
    have h2 := setSceneDetachF rest S _ hrest h1.2
    refine ⟨?_, h2.2⟩
    rw [h2.1, h1.1]
    simp

end

/-- The registration step performed on scene `S`'s world for one owned body
during a re-attach: keyed removal followed by an append. -/
def reattachStep (bs : List ℕ) (b : ℕ) : List ℕ :=
  bs.filter (fun x => x != b) ++ [b]

mutual

/-- Re-attaching a subtree already attached to scene `S` transforms the
world's registration list by one keyed remove-then-add per owned body. -/
theorem setSceneReattachT : ∀ (t : VTree) (S : ℕ) (st : PhysState) (w : PhysWorld),
    allSceneT (some S) t = true → st.worlds S = some w →
    ∃ w', (setSceneT (some S) true t st).2.worlds S = some w' ∧
      w'.bodies = (treeBodies t).foldl reattachStep w.bodies
  | .node d f, S, st, w, hall, hww => by
    simp only [allSceneT, Bool.and_eq_true, beq_iff_eq] at hall
    obtain ⟨hscene, hf⟩ := hall
    simp only [setSceneT_node, treeBodies]
    cases hb : d.physicsBody with
    | none =>
      have hd : (setSceneData (some S) d st).2 = st := by
        simp [setSceneData, hscene, hb, hww]
      rw [hd]
      simpa using setSceneReattachF f S st w hf hww
    | some b =>
      have hd : (setSceneData (some S) d st).2
          = { worlds := updWorlds (updWorlds st.worlds S (removePhysicsBody w b)) S
                (addPhysicsBody (removePhysicsBody w b) b),
              events := (st.events ++ [.remove S b]) ++ [.add S b] } := by
        simp [setSceneData, hscene, hb, hww]
      rw [hd]
      have hw2 : ({ worlds := updWorlds (updWorlds st.worlds S (removePhysicsBody w b)) S (addPhysicsBody (removePhysicsBody w b) b), events := (st.events ++ [.remove S b]) ++ [.add S b] } : PhysState).worlds S = some (addPhysicsBody (removePhysicsBody w b) b) := by
        simp
      have h := setSceneReattachF f S _ (addPhysicsBody (removePhysicsBody w b) b) hf hw2
      simpa [reattachStep, addPhysicsBody, removePhysicsBody] using h

/-- Forest version of `setSceneReattachT`. -/
theorem setSceneReattachF : ∀ (f : VForest) (S : ℕ) (st : PhysState) (w : PhysWorld),
    allSceneF (some S) f = true → st.worlds S = some w →
    ∃ w', (setSceneF (some S) true f st).2.worlds S = some w' ∧
      w'.bodies = (forestBodies f).foldl reattachStep w.bodies
  | .nil, S, st, w, _, hww => by simp [setSceneF, forestBodies, hww]
  | .cons c rest, S, st, w, hall, hww => by
    simp only [allSceneF, Bool.and_eq_true] at hall
    obtain ⟨hc, hrest⟩ := hall
    simp only [setSceneF, forestBodies]
    obtain ⟨w1, hw1, hbs1⟩ := setSceneReattachT c S st w hc hww
    obtain ⟨w2, hw2, hbs2⟩ := setSceneReattachF rest S _ w1 hrest hw1
    refine ⟨w2, hw2, ?_⟩
    rw [hbs2, hbs1, List.foldl_append]

end

/-- Keyed removal leaves no occurrence of the removed body. -/
theorem count_filter_ne (l : List ℕ) (b : ℕ) :
    (l.filter (fun x => x != b)).count b = 0 := by
  refine List.count_eq_zero.mpr ?_
  intro hmem
  have := List.mem_filter.mp hmem
  simp at this

/-- C6.  Attaching a fully detached subtree owning exactly one physics body to
a scene issues exactly one add-physics-body call on that scene's physics world
(and no remove); detaching it issues exactly one remove-physics-body call (and
no add); re-attaching it to the scene it is already attached to is idempotent
on the physics world: afterwards the body is registered exactly once. -/
theorem c6_scene_physics_registration :
    (∀ (t : VTree) (S b : ℕ) (ws : ℕ → Option PhysWorld),
       allSceneT none t = true → treeBodies t = [b] →
       (setSceneT (some S) true t ⟨ws, []⟩).2.events = [.add S b])
  ∧ (∀ (t : VTree) (S b : ℕ) (ws : ℕ → Option PhysWorld),
       allSceneT (some S) t = true → treeBodies t = [b] → (ws S).isSome = true →
       (setSceneT none true t ⟨ws, []⟩).2.events = [.remove S b])
  ∧ (∀ (t : VTree) (S b : ℕ) (ws : ℕ → Option PhysWorld) (w : PhysWorld),
       allSceneT (some S) t = true → treeBodies t = [b] → ws S = some w →
       ∃ w', (setSceneT (some S) true t ⟨ws, []⟩).2.worlds S = some w' ∧
         w'.bodies.count b = 1) := by
  refine ⟨?_, ?_, ?_⟩
  · intro t S b ws hall hbody
    rw [setSceneAttachT t S ⟨ws, []⟩ hall, hbody]
    rfl
  · intro t S b ws hall hbody hw
    rw [(setSceneDetachT t S ⟨ws, []⟩ hall hw).1, hbody]
    rfl
  · intro t S b ws w hall hbody hww
    obtain ⟨w', hw', hbs⟩ := setSceneReattachT t S ⟨ws, []⟩ w hall hww
    refine ⟨w', hw', ?_⟩
    rw [hbs, hbody]
    simp only [List.foldl_cons, List.foldl_nil, reattachStep]
    rw [List.count_append]
    rw [count_filter_ne]
    simp

/-- A detached single node owning physics body 7, for witnesses. -/
def physFree : VTree := .node { defaultData with physicsBody := some 7 } .nil

/-- The same node attached to scene 3, for witnesses. -/
def physAttached : VTree :=
  .node { defaultData with
    physicsBody := some 7
    scene := some 3 } .nil

/-- The worlds map carrying scene 3's world with body 7 registered once. -/
def wsAttached : ℕ → Option PhysWorld := fun s => if s = 3 then some ⟨[7]⟩ else none

/-- Witness for C6: attach, detach and idempotent re-attach on a concrete
single-body subtree. -/
theorem c6_scene_physics_registration_witness :
    (setSceneT (some 3) true physFree ⟨fun _ => none, []⟩).2.events = [.add 3 7]
  ∧ (setSceneT none true physAttached ⟨wsAttached, []⟩).2.events = [.remove 3 7]
  ∧ ∃ w', (setSceneT (some 3) true physAttached ⟨wsAttached, []⟩).2.worlds 3 = some w' ∧
      w'.bodies.count 7 = 1 :=
  ⟨c6_scene_physics_registration.1 physFree 3 7 (fun _ => none) (by decide) (by decide),
   c6_scene_physics_registration.2.1 physAttached 3 7 wsAttached (by decide) (by decide) rfl,
   c6_scene_physics_registration.2.2 physAttached 3 7 wsAttached ⟨[7]⟩
     (by decide) (by decide) rfl⟩

/-! ## C7: atomic writes are isolated to one node's atomic world fields -/

/-- The parent node state of the node addressed by a non-empty path. -/
def parentAt : VTree → List ℕ → Option NodeData
  | _, [] => none
  | .node d f, [i] => (forestGet i f).map (fun _ => d)
  | .node _ f, i :: rest => (forestGet i f).bind (fun c => parentAt c rest)

/-- The parent used by `atomicWriteAt` when descending with accumulator
`par`: the accumulator for the root, the in-tree parent otherwise. -/
def parentAtD (par : Option NodeData) (t : VTree) : List ℕ → Option NodeData
  | [] => par
  | i :: rest => parentAt t (i :: rest)

/-- `forestModify` acts exactly at the modified index. -/
theorem forestGet_modify : ∀ (f : VForest) (g : VTree → VTree) (i : ℕ),
    forestGet i (forestModify g i f) = (forestGet i f).map g
  | .nil, _, i => by cases i <;> rfl
  | .cons _ _, _, 0 => rfl
  | .cons _ rest, g, Nat.succ i => forestGet_modify rest g i

/-- Unfolding of `parentAt` through a valid first step. -/
theorem parentAt_cons (d : NodeData) (f : VForest) (i : ℕ) (rest : List ℕ) (c : VTree)
    (hc : forestGet i f = some c) :
    parentAt (.node d f) (i :: rest) = parentAtD (some d) c rest := by
  cases rest with
  | nil => simp [parentAt, parentAtD, hc]
  | cons r rs => simp [parentAt, parentAtD, hc]

/-- An atomic write at a valid path rewrites exactly the addressed node (by
`atomicWriteData` with the in-tree parent) and leaves every other node of its
subtree — in particular every descendant of the addressed node — untouched. -/
theorem atomicWriteAt_spec : ∀ (path : List ℕ) (t : VTree) (par : Option NodeData)
    (w : AtomicWrite), (nodeAt t path).isSome = true →
    nodeAt (atomicWriteAt par w t path) path
        = (nodeAt t path).map (atomicWriteData (parentAtD par t path) w)
    ∧ ∀ q, q ≠ [] → nodeAt (atomicWriteAt par w t path) (path ++ q) = nodeAt t (path ++ q)
  | [], t, par, w, _ => by
    refine ⟨?_, ?_⟩
    · cases t with
      | node d f => rfl
    · intro q hq
      cases q with
      | nil => exact absurd rfl hq
      | cons j q2 =>
        cases t with
        | node d f => rfl
  | i :: rest, .node d f, par, w, hv => by
    cases hc : forestGet i f with
    | none =>
      rw [show nodeAt (.node d f) (i :: rest) = (forestGet i f).bind (fun c => nodeAt c rest)
        from rfl, hc] at hv
      cases hv
    | some c =>
      have hv2 : (nodeAt c rest).isSome = true := by
        rw [show nodeAt (.node d f) (i :: rest) = (forestGet i f).bind (fun c => nodeAt c rest)
          from rfl, hc] at hv
        exact hv
      have ih := atomicWriteAt_spec rest c (some d) w hv2
      refine ⟨?_, ?_⟩
      · simp only [atomicWriteAt, nodeAt, forestGet_modify, hc, parentAtD,
          parentAt_cons d f i rest c hc, Option.map_some', Option.some_bind]
        exact ih.1
      · intro q hq
        simp only [atomicWriteAt, List.cons_append, nodeAt, forestGet_modify, hc,
          Option.map_some', Option.some_bind]
        exact ih.2 q hq

/-- C7.  An atomic setter call (`setPositionAtomic`, `setRotationAtomic` or
`setScaleAtomic`) on a node recomputes only that node's own atomic
world-space fields — last computed transform, position and rotation — from
the stored local atomic cells and the parent's last-synchronized atomic world
transform and rotation (identity for a root); it leaves every canonical
(non-atomic) field of the node unchanged (including the atomic umbrella box,
whose recomputation is disabled in the code), and leaves every field of every
descendant node unchanged. -/
theorem c7_atomic_write_isolation :
    (∀ (parent : Option NodeData) (w : AtomicWrite) (d : NodeData),
       (atomicWriteData parent w d).canonical = d.canonical ∧
       (atomicWriteData parent w d).lastUmbrellaBoundingBox = d.lastUmbrellaBoundingBox)
  ∧ (∀ (parent : Option NodeData) (w : AtomicWrite) (d : NodeData),
       (atomicWriteData parent w d).lastComputedTransform
         = (match parent with | some p => p.lastComputedTransform | none => 1)
             * (translateM (storeAtomic w d).lastPosition
                 * ((storeAtomic w d).lastRotation * scaleM (storeAtomic w d).lastScale)) ∧
       (atomicWriteData parent w d).lastComputedPosition
         = transCol (atomicWriteData parent w d).lastComputedTransform ∧
       (atomicWriteData parent w d).lastComputedRotation
         = (match parent with | some p => p.lastComputedRotation | none => 1)
             * (storeAtomic w d).lastRotation)
  ∧ (∀ (t : VTree) (path : List ℕ) (w : AtomicWrite), (nodeAt t path).isSome = true →
       nodeAt (atomicWriteAt none w t path) path
           = (nodeAt t path).map (atomicWriteData (parentAtD none t path) w)
       ∧ ∀ q, q ≠ [] →
           nodeAt (atomicWriteAt none w t path) (path ++ q) = nodeAt t (path ++ q)) := by
  refine ⟨?_, ?_, ?_⟩
  · intro parent w d
    cases w <;> exact ⟨rfl, rfl⟩
  · intro parent w d
    exact ⟨rfl, rfl, rfl⟩
  · intro t path w hv
    exact atomicWriteAt_spec path t none w hv

/-- A two-node tree for the C7 witness. -/
def atomicPair : VTree :=
  .node { defaultData with uid := 10 }
    (.cons (.node { defaultData with uid := 11 } .nil) .nil)

/-- Witness for C7: a concrete atomic position write on the child of a
two-node tree, with the canonical view preserved and the node rewritten by
`atomicWriteData` with the in-tree parent. -/
theorem c7_atomic_write_isolation_witness :
    (atomicWriteData none (.pos ⟨1, 2, 3⟩) defaultData).canonical = defaultData.canonical
  ∧ nodeAt (atomicWriteAt none (.pos ⟨1, 2, 3⟩) atomicPair [0]) [0]
      = (nodeAt atomicPair [0]).map
          (atomicWriteData (parentAtD none atomicPair [0]) (.pos ⟨1, 2, 3⟩)) :=
  ⟨(c7_atomic_write_isolation.1 none (.pos ⟨1, 2, 3⟩) defaultData).1,
   (c7_atomic_write_isolation.2.2 atomicPair [0] (.pos ⟨1, 2, 3⟩) rfl).1⟩

/-! ## Sort-pass lemmas shared by C3 and C5 -/

/-- Unfolding of the sort pass at an invisible node: the early return leaves
the subtree, the traversal state and the call log untouched. -/
theorem updateSortKeysT_invisible (ctx : SortCtx) (pOp : ℚ) (pHD : ℤ) (pDist : ℚ)
    (d : NodeData) (f : VForest) (st : SortState) (h : d.visible = false) :
    updateSortKeysT ctx pOp pHD pDist (.node d f) st = (.node d f, st, []) := by
  simp [updateSortKeysT, h]

/-- Unfolding of the sort pass at a visible node. -/
theorem updateSortKeysT_visible (ctx : SortCtx) (pOp : ℚ) (pHD : ℤ) (pDist : ℚ)
    (d : NodeData) (f : VForest) (st : SortState) (h : ¬ d.visible = false) :
    updateSortKeysT ctx pOp pHD pDist (.node d f) st
      = (.node (updateSortKeysNode ctx pOp pHD pDist d st).upd
           (updateSortKeysF ctx (updateSortKeysNode ctx pOp pHD pDist d st).upd.computedOpacity
             (updateSortKeysNode ctx pOp pHD pDist d st).pushedDepth
             (updateSortKeysNode ctx pOp pHD pDist d st).pushedDist f
             (updateSortKeysNode ctx pOp pHD pDist d st).st').1,
         (updateSortKeysF ctx (updateSortKeysNode ctx pOp pHD pDist d st).upd.computedOpacity
             (updateSortKeysNode ctx pOp pHD pDist d st).pushedDepth
             (updateSortKeysNode ctx pOp pHD pDist d st).pushedDist f
             (updateSortKeysNode ctx pOp pHD pDist d st).st').2.1,
         (updateSortKeysNode ctx pOp pHD pDist d st).log
           ++ (updateSortKeysF ctx (updateSortKeysNode ctx pOp pHD pDist d st).upd.computedOpacity
                (updateSortKeysNode ctx pOp pHD pDist d st).pushedDepth
                (updateSortKeysNode ctx pOp pHD pDist d st).pushedDist f
                (updateSortKeysNode ctx pOp pHD pDist d st).st').2.2) := by
  simp [updateSortKeysT, h]

/-- The per-node sort body only rewrites the composite opacity and the
inverse-transpose transform. -/
theorem sortNode_upd_visible (ctx : SortCtx) (pOp : ℚ) (pHD : ℤ) (pDist : ℚ)
    (d : NodeData) (st : SortState) :
    (updateSortKeysNode ctx pOp pHD pDist d st).upd.visible = d.visible := rfl

/-- The composite opacity computed by the per-node sort body. -/
theorem sortNode_upd_computedOpacity (ctx : SortCtx) (pOp : ℚ) (pHD : ℤ) (pDist : ℚ)
    (d : NodeData) (st : SortState) :
    (updateSortKeysNode ctx pOp pHD pDist d st).upd.computedOpacity
      = pOp * d.opacity * d.opacityFromHiddenFlag := rfl

/-- The sort pass leaves a node's visibility unchanged. -/
theorem sortTree_visible (ctx : SortCtx) (pOp : ℚ) (pHD : ℤ) (pDist : ℚ)
    (t : VTree) (st : SortState) :
    (updateSortKeysT ctx pOp pHD pDist t st).1.data.visible = t.data.visible := by
  cases t with
  | node d f =>
    by_cases h : d.visible = false
    · rw [updateSortKeysT_invisible ctx pOp pHD pDist d f st h]
    · rw [updateSortKeysT_visible ctx pOp pHD pDist d f st h]
      rfl

/-- The sort pass leaves a node's own opacity unchanged. -/
theorem sortTree_opacity (ctx : SortCtx) (pOp : ℚ) (pHD : ℤ) (pDist : ℚ)
    (t : VTree) (st : SortState) :
    (updateSortKeysT ctx pOp pHD pDist t st).1.data.opacity = t.data.opacity := by
  cases t with
  | node d f =>
    by_cases h : d.visible = false
    · rw [updateSortKeysT_invisible ctx pOp pHD pDist d f st h]
    · rw [updateSortKeysT_visible ctx pOp pHD pDist d f st h]
      rfl

/-- The sort pass leaves a node's hidden-flag-derived opacity unchanged. -/
theorem sortTree_opacityHidden (ctx : SortCtx) (pOp : ℚ) (pHD : ℤ) (pDist : ℚ)
    (t : VTree) (st : SortState) :
    (updateSortKeysT ctx pOp pHD pDist t st).1.data.opacityFromHiddenFlag
      = t.data.opacityFromHiddenFlag := by
  cases t with
  | node d f =>
    by_cases h : d.visible = false
    · rw [updateSortKeysT_invisible ctx pOp pHD pDist d f st h]
    · rw [updateSortKeysT_visible ctx pOp pHD pDist d f st h]
      rfl

/-- The composite opacity of a visible node after the sort pass is the
parent's pushed opacity times own opacity times hidden-flag opacity. -/
theorem sortRoot_opacity (ctx : SortCtx) (pOp : ℚ) (pHD : ℤ) (pDist : ℚ)
    (t : VTree) (st : SortState) (hvis : t.data.visible = true) :
    (updateSortKeysT ctx pOp pHD pDist t st).1.data.computedOpacity
      = pOp * t.data.opacity * t.data.opacityFromHiddenFlag := by
  cases t with
  | node d f =>
    have h : ¬ d.visible = false := by
      simp only [VTree.data_node] at hvis
      simp [hvis]
    rw [updateSortKeysT_visible ctx pOp pHD pDist d f st h]
    rfl

/-- At a hierarchy top (`parent depth = -1`, flag set, geometry present) the
per-node sort body records exactly one call carrying the freshly bumped
hierarchy id, depth 0, the composite opacity, and the bounding-box camera
distance — and pushes that same distance and depth 0 for the children. -/
theorem sortNode_top (ctx : SortCtx) (pOp pDist : ℚ) (d : NodeData) (st : SortState)
    (hh : d.hierarchicalRendering = true) (hg : d.geometry.isSome = true) :
    (updateSortKeysNode ctx pOp (-1) pDist d st).log
        = [⟨d.uid, st.hierarchyId + 1, 0, pOp * d.opacity * d.opacityFromHiddenFlag,
            ctx.distToCamera d.computedBoundingBox⟩]
    ∧ (updateSortKeysNode ctx pOp (-1) pDist d st).pushedDist
        = ctx.distToCamera d.computedBoundingBox
    ∧ (updateSortKeysNode ctx pOp (-1) pDist d st).pushedDepth = 0 := by
  refine ⟨?_, ?_, ?_⟩ <;>
    simp [updateSortKeysNode, hh, hg]

/-- Below a hierarchical ancestor (`parent depth ≥ 0`) the per-node sort body
records the parent's pushed distance on any geometry call and pushes that
same distance, with a pushed depth that stays nonnegative. -/
theorem sortNode_inner (ctx : SortCtx) (pOp pDist : ℚ) (pHD : ℤ) (d : NodeData)
    (st : SortState) (hp : 0 ≤ pHD) :
    (∀ e ∈ (updateSortKeysNode ctx pOp pHD pDist d st).log,
       e.distanceFromCamera = pDist)
    ∧ (updateSortKeysNode ctx pOp pHD pDist d st).pushedDist = pDist
    ∧ 0 ≤ (updateSortKeysNode ctx pOp pHD pDist d st).pushedDepth := by
  refine ⟨?_, ?_, ?_⟩
  · intro e he
    cases hg : d.geometry with
    | none => simp [updateSortKeysNode, hg] at he
    | some g =>
      simp [updateSortKeysNode, hg, decide_eq_true hp] at he
      rw [he]
  · simp [updateSortKeysNode, decide_eq_true hp]
  · simp [updateSortKeysNode, decide_eq_true hp]
    omega

mutual

/-- Every geometry call recorded inside a subtree entered below a hierarchical
ancestor carries the distance pushed by that ancestor. -/
theorem sortInnerT : ∀ (t : VTree) (ctx : SortCtx) (pOp : ℚ) (pHD : ℤ) (pDist : ℚ)
    (st : SortState), 0 ≤ pHD →
    ∀ e ∈ (updateSortKeysT ctx pOp pHD pDist t st).2.2, e.distanceFromCamera = pDist
  | .node d f, ctx, pOp, pHD, pDist, st, hp, e, he => by
    by_cases hv : d.visible = false
    · rw [updateSortKeysT_invisible ctx pOp pHD pDist d f st hv] at he
      cases he
    · rw [updateSortKeysT_visible ctx pOp pHD pDist d f st hv] at he
      rw [List.mem_append] at he
      cases he with
      | inl h1 => exact (sortNode_inner ctx pOp pDist pHD d st hp).1 e h1
      | inr h2 =>
        have hd := (sortNode_inner ctx pOp pDist pHD d st hp).2.1
        have hdep := (sortNode_inner ctx pOp pDist pHD d st hp).2.2
        rw [hd] at h2
        exact sortInnerF f ctx _ _ pDist _ hdep e h2

/-- Forest version of `sortInnerT`. -/
theorem sortInnerF : ∀ (f : VForest) (ctx : SortCtx) (pOp : ℚ) (pHD : ℤ) (pDist : ℚ)
    (st : SortState), 0 ≤ pHD →
    ∀ e ∈ (updateSortKeysF ctx pOp pHD pDist f st).2.2, e.distanceFromCamera = pDist
  | .nil, _, _, _, _, _, _, e, he => by cases he
  | .cons c rest, ctx, pOp, pHD, pDist, st, hp, e, he => by
    simp only [updateSortKeysF, List.mem_append] at he
    cases he with
    | inl h1 => exact sortInnerT c ctx pOp pHD pDist st hp e h1
    | inr h2 => exact sortInnerF rest ctx pOp pHD pDist _ hp e h2

end

/-- The per-node sort body is idempotent: it reads only node fields it leaves
unchanged. -/
theorem sortNode_idem (ctx : SortCtx) (pOp : ℚ) (pHD : ℤ) (pDist : ℚ)
    (d : NodeData) (st : SortState) :
    updateSortKeysNode ctx pOp pHD pDist
        (updateSortKeysNode ctx pOp pHD pDist d st).upd st
      = updateSortKeysNode ctx pOp pHD pDist d st := rfl

mutual

/-- The sort pass is idempotent on the tree, the traversal state and the
recorded calls: re-running it on its own result with the same arguments
changes nothing. -/
theorem sortIdemT : ∀ (t : VTree) (ctx : SortCtx) (pOp : ℚ) (pHD : ℤ) (pDist : ℚ)
    (st : SortState),
    updateSortKeysT ctx pOp pHD pDist (updateSortKeysT ctx pOp pHD pDist t st).1 st
      = updateSortKeysT ctx pOp pHD pDist t st
  | .node d f, ctx, pOp, pHD, pDist, st => by
    by_cases hv : d.visible = false
    · simp only [updateSortKeysT_invisible ctx pOp pHD pDist d f st hv]
    · rw [updateSortKeysT_visible ctx pOp pHD pDist d f st hv]
      have hv2 : ¬ (updateSortKeysNode ctx pOp pHD pDist d st).upd.visible = false := by
        rw [sortNode_upd_visible]
        exact hv
      rw [updateSortKeysT_visible ctx pOp pHD pDist
        (updateSortKeysNode ctx pOp pHD pDist d st).upd _ st hv2]
      rw [sortNode_idem]
      rw [sortIdemF f ctx (updateSortKeysNode ctx pOp pHD pDist d st).upd.computedOpacity
        (updateSortKeysNode ctx pOp pHD pDist d st).pushedDepth
        (updateSortKeysNode ctx pOp pHD pDist d st).pushedDist
        (updateSortKeysNode ctx pOp pHD pDist d st).st']

/-- Forest version of `sortIdemT`.  Re-running the children loop on its own
result with the same entry state reproduces it. -/
theorem sortIdemF : ∀ (f : VForest) (ctx : SortCtx) (pOp : ℚ) (pHD : ℤ) (pDist : ℚ)
    (st : SortState),
    updateSortKeysF ctx pOp pHD pDist (updateSortKeysF ctx pOp pHD pDist f st).1 st
      = updateSortKeysF ctx pOp pHD pDist f st
  | .nil, _, _, _, _, _ => rfl
  | .cons c rest, ctx, pOp, pHD, pDist, st => by
    simp only [updateSortKeysF]
    rw [sortIdemT c ctx pOp pHD pDist st]
    rw [sortIdemF rest ctx pOp pHD pDist (updateSortKeysT ctx pOp pHD pDist c st).2.1]

end

/-! ## C3: hierarchical subtrees share one camera distance -/

/-- C3.  During a sort-key pass invoked on a subtree root `R` that is flagged
hierarchical and has no hierarchical ancestor (the parent's pushed hierarchy
depth is the non-hierarchical marker −1), is visible and carries geometry:
the first recorded geometry call is `R`'s own, carrying the camera distance of
`R`'s bounding box, and every geometry call recorded anywhere in the subtree —
in particular every visible descendant's — carries that same distance, for an
arbitrary camera/distance context; and re-running the pass on its result with
the same arguments records the identical calls, so the shared distance is
stable across repeated passes. -/
theorem c3_hierarchy_shared_distance (ctx : SortCtx) (pOp pDist : ℚ)
    (st : SortState) (t : VTree) (hh : t.data.hierarchicalRendering = true)
    (hvis : t.data.visible = true) (hg : t.data.geometry.isSome = true) :
    (∃ rest, (updateSortKeysT ctx pOp (-1) pDist t st).2.2
        = ⟨t.data.uid, st.hierarchyId + 1, 0,
           pOp * t.data.opacity * t.data.opacityFromHiddenFlag,
           ctx.distToCamera t.data.computedBoundingBox⟩ :: rest)
    ∧ (∀ e ∈ (updateSortKeysT ctx pOp (-1) pDist t st).2.2,
        e.distanceFromCamera = ctx.distToCamera t.data.computedBoundingBox)
    ∧ (updateSortKeysT ctx pOp (-1) pDist
         (updateSortKeysT ctx pOp (-1) pDist t st).1 st).2.2
        = (updateSortKeysT ctx pOp (-1) pDist t st).2.2 := by
  cases t with
  | node d f =>
    simp only [VTree.data_node] at hh hvis hg
    have hv : ¬ d.visible = false := by simp [hvis]
    have htop := sortNode_top ctx pOp pDist d st hh hg
    refine ⟨?_, ?_, ?_⟩
    · rw [updateSortKeysT_visible ctx pOp (-1) pDist d f st hv]
      refine ⟨(updateSortKeysF ctx (updateSortKeysNode ctx pOp (-1) pDist d st).upd.computedOpacity
        (updateSortKeysNode ctx pOp (-1) pDist d st).pushedDepth
        (updateSortKeysNode ctx pOp (-1) pDist d st).pushedDist f
        (updateSortKeysNode ctx pOp (-1) pDist d st).st').2.2, ?_⟩
      rw [htop.1]
      rfl
    · intro e he
      rw [updateSortKeysT_visible ctx pOp (-1) pDist d f st hv] at he
      rw [List.mem_append] at he
      cases he with
      | inl h1 =>
        rw [htop.1] at h1
        rw [List.mem_singleton] at h1
        rw [h1]
        rfl
      | inr h2 =>
        have h0 : (0 : ℤ) ≤ (updateSortKeysNode ctx pOp (-1) pDist d st).pushedDepth := by
          rw [htop.2.2]
        rw [htop.2.1] at h2
        exact sortInnerF f ctx _ _ _ _ h0 e h2
    · rw [sortIdemT (.node d f) ctx pOp (-1) pDist st]

/-- A hierarchical-top root over one geometry child, for the C3 witness. -/
def hierRoot : VTree :=
  .node { defaultData with
    uid := 20
    visible := true
    hierarchicalRendering := true
    geometry := some ⟨pointBox ⟨0, 0, 0⟩, pointBox ⟨0, 0, 0⟩, []⟩ }
    (.cons (.node { defaultData with
      uid := 21
      visible := true
      geometry := some ⟨pointBox ⟨0, 0, 0⟩, pointBox ⟨0, 0, 0⟩, []⟩ } .nil) .nil)

/-- Witness for C3 on a concrete hierarchical pair: the first recorded call of
the pass carries the root's bounding-box distance. -/
theorem c3_hierarchy_shared_distance_witness :
    ((updateSortKeysT ⟨fun b => b.xmin, fun _ => 0⟩ 1 (-1) 0 hierRoot ⟨0, 0⟩).2.2).head?.map
        (fun e => e.distanceFromCamera)
      = some (SortCtx.distToCamera ⟨fun b => b.xmin, fun _ => 0⟩
          hierRoot.data.computedBoundingBox) := by
  obtain ⟨rest, hlog⟩ := (c3_hierarchy_shared_distance ⟨fun b => b.xmin, fun _ => 0⟩ 1 0 ⟨0, 0⟩
    hierRoot rfl rfl rfl).1
  rw [hlog]
  rfl

/-! ## C5: composite opacity and the hidden-opacity threshold -/

mutual

/-- Parent-to-child composite-opacity accumulation over every subtree of a
sort-pass result that the pass reached (root and path visible). -/
theorem c5AuxT : ∀ (t : VTree) (ctx : SortCtx) (pOp : ℚ) (pHD : ℤ) (pDist : ℚ)
    (st : SortState) (s : VTree),
    OccursVis s (updateSortKeysT ctx pOp pHD pDist t st).1 →
    ∀ c, VForest.Mem c s.children → c.data.visible = true →
    c.data.computedOpacity
      = s.data.computedOpacity * c.data.opacity * c.data.opacityFromHiddenFlag
  | .node d f, ctx, pOp, pHD, pDist, st, s, hocc, c, hmem, hcvis => by
    by_cases hv : d.visible = false
    · rw [updateSortKeysT_invisible ctx pOp pHD pDist d f st hv] at hocc
      cases hocc with
      | refl h => rw [VTree.data_node] at h; rw [h] at hv; cases hv
      | step =>
        rename_i c0 hso hdv hmem0
        rw [hdv] at hv
        cases hv
    · rw [updateSortKeysT_visible ctx pOp pHD pDist d f st hv] at hocc
      cases hocc with
      | refl h =>
        have hfor := c5AuxF f ctx
          (updateSortKeysNode ctx pOp pHD pDist d st).upd.computedOpacity
          (updateSortKeysNode ctx pOp pHD pDist d st).pushedDepth
          (updateSortKeysNode ctx pOp pHD pDist d st).pushedDist
          (updateSortKeysNode ctx pOp pHD pDist d st).st' c
        rw [VTree.children_node] at hmem
        have h1 := (hfor hmem).1 hcvis
        rw [h1, VTree.data_node]
      | step =>
        rename_i c0 hso hdv hmem0
        exact (c5AuxF f ctx _ _ _ _ c0 hmem0).2 s hso c hmem hcvis

/-- Forest version of `c5AuxT`: the first component is the accumulation for a
processed child itself, the second covers its whole subtree. -/
theorem c5AuxF : ∀ (f : VForest) (ctx : SortCtx) (pOp : ℚ) (pHD : ℤ) (pDist : ℚ)
    (st : SortState) (c : VTree),
    VForest.Mem c (updateSortKeysF ctx pOp pHD pDist f st).1 →
    (c.data.visible = true →
       c.data.computedOpacity = pOp * c.data.opacity * c.data.opacityFromHiddenFlag)
    ∧ (∀ s, OccursVis s c → ∀ c2, VForest.Mem c2 s.children → c2.data.visible = true →
        c2.data.computedOpacity
          = s.data.computedOpacity * c2.data.opacity * c2.data.opacityFromHiddenFlag)
  | .cons h rest, ctx, pOp, pHD, pDist, st, c, hmem => by
    simp only [updateSortKeysF] at hmem
    cases hmem with
    | head =>
      constructor
      · intro hcvis
        have hvh : h.data.visible = true := by
          rw [← sortTree_visible ctx pOp pHD pDist h st]
          exact hcvis
        have := sortRoot_opacity ctx pOp pHD pDist h st hvh
        rw [this, sortTree_opacity, sortTree_opacityHidden]
      · intro s hocc c2 hmem2 hc2vis
        exact c5AuxT h ctx pOp pHD pDist st s hocc c2 hmem2 hc2vis
    | tail _ _ hmem2 =>
      exact c5AuxF rest ctx pOp pHD pDist _ c hmem2

end

/-- C5 (amended).  After a sort-key pass, for every node the pass reaches
(the node and all its ancestors visible): its composite opacity equals its
parent's composite opacity times its own opacity times its
hidden-flag-derived opacity, the pass's input opacity standing for the parent
of the root; and a node with geometry attached is excluded from rendering
exactly when its composite opacity is at or below the hidden threshold 0.02
(at the threshold excluded, above it included).  Nodes the pass does not
reach keep their stale composite opacity, which is why the claim is
restricted to reached nodes. -/
theorem c5_composite_opacity_threshold :
    (∀ (ctx : SortCtx) (pOp : ℚ) (pHD : ℤ) (pDist : ℚ) (st : SortState) (t : VTree),
       t.data.visible = true →
       (updateSortKeysT ctx pOp pHD pDist t st).1.data.computedOpacity
         = pOp * t.data.opacity * t.data.opacityFromHiddenFlag)
  ∧ (∀ (ctx : SortCtx) (pOp : ℚ) (pHD : ℤ) (pDist : ℚ) (st : SortState) (t s : VTree),
       OccursVis s (updateSortKeysT ctx pOp pHD pDist t st).1 →
       ∀ c, VForest.Mem c s.children → c.data.visible = true →
       c.data.computedOpacity
         = s.data.computedOpacity * c.data.opacity * c.data.opacityFromHiddenFlag)
  ∧ (∀ d : NodeData, d.geometry.isSome = true →
       (rendersGeometry d = false ↔ d.computedOpacity ≤ kHiddenOpacityThreshold)) := by
  refine ⟨?_, ?_, ?_⟩
  · exact fun ctx pOp pHD pDist st t hvis => sortRoot_opacity ctx pOp pHD pDist t st hvis
  · exact fun ctx pOp pHD pDist st t s hocc c hmem hcvis =>
      c5AuxT t ctx pOp pHD pDist st s hocc c hmem hcvis
  · intro d hg
    simp [rendersGeometry, hg, not_lt]

/-- A constant camera context for C5 examples. -/
def c5Ctx : SortCtx := ⟨fun _ => 0, fun _ => 0⟩

/-- An invisible node with opacity 1/2 and (default, stale) composite opacity
1: the sort pass's early return leaves the composite opacity untouched. -/
def c5Invisible : VTree :=
  .node { defaultData with
    visible := false
    opacity := 1 / 2 } .nil

/-- Counterexample to C5 as stated.  The claim says that after a sort-key
pass *every* node's composite opacity equals parent-composite × own ×
hidden-flag opacity.  `updateSortKeys` returns early on an invisible node, so
on a concrete invisible node with opacity 1/2 and stale composite opacity 1,
a pass with parent opacity 1 leaves 1 ≠ 1 · (1/2) · 1. -/
theorem c5_counterexample :
    ¬ ((updateSortKeysT c5Ctx 1 (-1) 0 c5Invisible ⟨0, 0⟩).1.data.computedOpacity
        = 1 * (updateSortKeysT c5Ctx 1 (-1) 0 c5Invisible ⟨0, 0⟩).1.data.opacity
            * (updateSortKeysT c5Ctx 1 (-1) 0 c5Invisible ⟨0, 0⟩).1.data.opacityFromHiddenFlag) := by
  show ¬ ((1 : ℚ) = 1 * (1 / 2) * 1)
  norm_num

/-- A visible node with geometry, opacity 1/2, for the C5 witness. -/
def c5Visible : VTree :=
  .node { defaultData with
    uid := 30
    visible := true
    opacity := 1 / 2
    geometry := some ⟨pointBox ⟨0, 0, 0⟩, pointBox ⟨0, 0, 0⟩, []⟩ } .nil

/-- Witness for the amended C5: the composite opacity of a concrete visible
node after the pass, and the threshold characterization at a concrete node
sitting exactly at the hidden threshold. -/
theorem c5_composite_opacity_threshold_witness :
    (updateSortKeysT c5Ctx 1 (-1) 0 c5Visible ⟨0, 0⟩).1.data.computedOpacity
        = 1 * c5Visible.data.opacity * c5Visible.data.opacityFromHiddenFlag
    ∧ (rendersGeometry { defaultData with
          geometry := some ⟨pointBox ⟨0, 0, 0⟩, pointBox ⟨0, 0, 0⟩, []⟩
          computedOpacity := kHiddenOpacityThreshold } = false
        ↔ ({ defaultData with
          geometry := some ⟨pointBox ⟨0, 0, 0⟩, pointBox ⟨0, 0, 0⟩, []⟩
          computedOpacity := kHiddenOpacityThreshold } : NodeData).computedOpacity
            ≤ kHiddenOpacityThreshold) :=
  ⟨c5_composite_opacity_threshold.1 c5Ctx 1 (-1) 0 ⟨0, 0⟩ c5Visible rfl,
   c5_composite_opacity_threshold.2.2 _ rfl⟩

end Viro
